import Mathlib

/-!
Shallow embedding of the `elaunira/openbao-plugin-database-clickhouse`
credential engine (`clickhouse.go`, `connection_producer.go`).

Go strings are modelled as lists of runes (`List Char`); Go iterates a
string rune by rune in `for _, char := range s`, so this matches the
source exactly on the splitter.  Byte-level concerns (UTF-8 encoding)
only diverge from the rune model outside ASCII; every concrete input in
this development is ASCII.
-/

set_option maxHeartbeats 1000000

abbrev GoStr := List Char

/-- The single-quote rune `'\''` (written via its code point). -/
def sqc : Char := Char.ofNat 39

/-- The double-quote rune `'"'` (written via its code point). -/
def dqc : Char := Char.ofNat 34

/-- Left brace rune, used by the `{{placeholder}}` syntax. -/
def lbr : Char := Char.ofNat 123

/-- Right brace rune. -/
def rbr : Char := Char.ofNat 125

/-- `unicode.IsSpace` from the Go standard library: the White_Space
code points (Latin-1 range plus the Unicode space separators). -/
def goIsSpace (c : Char) : Bool :=
  ([9, 10, 11, 12, 13, 32, 0x85, 0xA0, 0x1680,
    0x2000, 0x2001, 0x2002, 0x2003, 0x2004, 0x2005, 0x2006, 0x2007,
    0x2008, 0x2009, 0x200A, 0x2028, 0x2029, 0x202F, 0x205F, 0x3000] :
    List Nat).contains c.toNat

/-- Drop leading white space (the left half of `strings.TrimSpace`). -/
def goTrimLeft (l : GoStr) : GoStr := l.dropWhile goIsSpace

/-- Drop trailing white space (the right half of `strings.TrimSpace`). -/
def goTrimRight (l : GoStr) : GoStr := (l.reverse.dropWhile goIsSpace).reverse

/-- `strings.TrimSpace`: remove leading and trailing white space. -/
def goTrimSpace (l : GoStr) : GoStr := goTrimRight (goTrimLeft l)

/-! ### Statement splitter (`splitStatements`, clickhouse.go:259-294)

The Go function folds over the runes of the input carrying the list of
emitted fragments, the current fragment buffer, and the quote-tracking
state (`inQuote`, `quoteChar`).  `SplitState`/`splitStep` are that loop
body verbatim; `splitStatements` adds the final-fragment flush. -/

structure SplitState where
  fragments : List GoStr
  buffer : GoStr
  inQuote : Bool
  quoteChar : Char
deriving Repr, DecidableEq

def initSplitState : SplitState :=
  { fragments := [], buffer := [], inQuote := false, quoteChar := Char.ofNat 0 }

def splitStep (st : SplitState) (c : Char) : SplitState :=
  if c = sqc ∨ c = dqc then
    if st.inQuote = false then
      { st with inQuote := true, quoteChar := c, buffer := st.buffer ++ [c] }
    else if c = st.quoteChar then
      { st with inQuote := false, buffer := st.buffer ++ [c] }
    else
      { st with buffer := st.buffer ++ [c] }
  else if c = ';' ∧ st.inQuote = false then
    let stmt := goTrimSpace st.buffer
    if stmt = [] then
      { st with buffer := [] }
    else
      { st with fragments := st.fragments ++ [stmt], buffer := [] }
  else
    { st with buffer := st.buffer ++ [c] }

def scanSplit (s : GoStr) : SplitState := s.foldl splitStep initSplitState

def splitStatements (s : GoStr) : List GoStr :=
  let st := scanSplit s
  let last := goTrimSpace st.buffer
  st.fragments ++ (if last = [] then [] else [last])

/-! ### Trim lemmas -/

theorem dropWhile_idem (p : Char → Bool) (l : GoStr) :
    (l.dropWhile p).dropWhile p = l.dropWhile p := by
  induction l with
  | nil => rfl
  | cons a t ih =>
    by_cases h : p a
    · simp [List.dropWhile, h, ih]
    · simp [List.dropWhile, h]

theorem goTrimLeft_idem (l : GoStr) : goTrimLeft (goTrimLeft l) = goTrimLeft l :=
  dropWhile_idem goIsSpace l

theorem goTrimRight_idem (l : GoStr) : goTrimRight (goTrimRight l) = goTrimRight l := by
  simp [goTrimRight, dropWhile_idem]

theorem dropWhile_eq_self_head (p : Char → Bool) (c : Char) (t : GoStr)
    (h : (c :: t).dropWhile p = c :: t) : p c = false := by
  by_cases hc : p c
  · exfalso
    have hlen := (List.dropWhile_sublist (l := t) p).length_le
    have : (c :: t).dropWhile p = t.dropWhile p := by simp [List.dropWhile, hc]
    rw [this] at h
    have := congrArg List.length h
    simp at this
    omega
  · simpa using hc

theorem dropWhile_suffix_of (p : Char → Bool) (l : GoStr) :
    ∃ u, l = u ++ l.dropWhile p := by
  induction l with
  | nil => exact ⟨[], rfl⟩
  | cons a t ih =>
    by_cases h : p a
    · obtain ⟨u, hu⟩ := ih
      exact ⟨a :: u, by simp [List.dropWhile, h]; exact hu⟩
    · exact ⟨[], by simp [List.dropWhile, h]⟩

/-- `goTrimRight l` is a prefix of `l`. -/
theorem goTrimRight_prefix (l : GoStr) : ∃ u, l = goTrimRight l ++ u := by
  obtain ⟨u, hu⟩ := dropWhile_suffix_of goIsSpace l.reverse
  refine ⟨u.reverse, ?_⟩
  have := congrArg List.reverse hu
  simpa [goTrimRight] using this

theorem goTrimLeft_goTrimRight (l : GoStr) (h : goTrimLeft l = l) :
    goTrimLeft (goTrimRight l) = goTrimRight l := by
  cases htr : goTrimRight l with
  | nil => rfl
  | cons c t =>
    obtain ⟨u, hu⟩ := goTrimRight_prefix l
    rw [htr] at hu
    subst hu
    have hc : goIsSpace c = false := dropWhile_eq_self_head goIsSpace c (t ++ u) h
    simp [goTrimLeft, List.dropWhile, hc]

/-- `strings.TrimSpace` is idempotent. -/
theorem goTrimSpace_idem (l : GoStr) : goTrimSpace (goTrimSpace l) = goTrimSpace l := by
  unfold goTrimSpace
  rw [goTrimLeft_goTrimRight (goTrimLeft l) (goTrimLeft_idem l),
    goTrimRight_idem]

theorem mem_dropWhile_of_not (p : Char → Bool) (c : Char) (l : GoStr)
    (hc : c ∈ l) (hp : p c = false) : c ∈ l.dropWhile p := by
  induction l with
  | nil => cases hc
  | cons a t ih =>
    by_cases ha : p a
    · rcases List.mem_cons.1 hc with rfl | hm
      · rw [hp] at ha; cases ha
      · rw [List.dropWhile_cons_of_pos ha]; exact ih hm
    · rw [List.dropWhile_cons_of_neg (by simpa using ha)]; exact hc

/-- A list containing a non-space character does not trim to empty. -/
theorem goTrimSpace_ne_nil_of_mem (l : GoStr) (c : Char)
    (hc : c ∈ l) (hns : goIsSpace c = false) : goTrimSpace l ≠ [] := by
  have h1 : c ∈ goTrimLeft l := mem_dropWhile_of_not goIsSpace c l hc hns
  have h2 : c ∈ (goTrimLeft l).reverse := List.mem_reverse.2 h1
  have h3 : c ∈ ((goTrimLeft l).reverse.dropWhile goIsSpace) :=
    mem_dropWhile_of_not goIsSpace c _ h2 hns
  intro hnil
  unfold goTrimSpace goTrimRight at hnil
  rw [List.reverse_eq_nil_iff] at hnil
  rw [hnil] at h3
  cases h3

/-! ### Per-step facts about the splitter loop -/

/-- Each loop step either keeps the fragment list or appends exactly one
trimmed, non-empty fragment. -/
theorem splitStep_fragments (st : SplitState) (c : Char) :
    (splitStep st c).fragments = st.fragments ∨
    ∃ g, (splitStep st c).fragments = st.fragments ++ [g] ∧
      goTrimSpace g = g ∧ g ≠ [] := by
  unfold splitStep
  by_cases h1 : c = sqc ∨ c = dqc
  · rw [if_pos h1]
    by_cases h2 : st.inQuote = false
    · rw [if_pos h2]; left; rfl
    · rw [if_neg h2]
      by_cases h3 : c = st.quoteChar
      · rw [if_pos h3]; left; rfl
      · rw [if_neg h3]; left; rfl
  · rw [if_neg h1]
    by_cases h4 : c = ';' ∧ st.inQuote = false
    · rw [if_pos h4]
      by_cases h5 : goTrimSpace st.buffer = []
      · simp only [h5, if_pos rfl]; left; rfl
      · rw [if_neg h5]
        exact Or.inr ⟨goTrimSpace st.buffer, rfl, goTrimSpace_idem _, h5⟩
    · rw [if_neg h4]; left; rfl

theorem foldl_fragments_invariant (s : GoStr) : ∀ st : SplitState,
    (∀ f ∈ st.fragments, goTrimSpace f = f ∧ f ≠ []) →
    ∀ f ∈ (s.foldl splitStep st).fragments, goTrimSpace f = f ∧ f ≠ [] := by
  induction s with
  | nil => intro st h; simpa using h
  | cons c rest ih =>
    intro st h
    rw [List.foldl_cons]
    refine ih (splitStep st c) ?_
    intro f hf
    rcases splitStep_fragments st c with heq | ⟨g, heq, hg1, hg2⟩
    · rw [heq] at hf; exact h f hf
    · rw [heq] at hf
      rcases List.mem_append.1 hf with h' | h'
      · exact h f h'
      · rw [List.mem_singleton] at h'
        subst h'
        exact ⟨hg1, hg2⟩

/-- C5: every fragment returned by `splitStatements` is non-empty and
already trimmed (an all-whitespace fragment is dropped, not appended);
`splitStatements ""` and `splitStatements "   "` are empty, and
`splitStatements "SELECT 1;; SELECT 2"` is `["SELECT 1", "SELECT 2"]`. -/
theorem c5_split_fragments_trimmed_nonempty :
    (∀ s f, f ∈ splitStatements s → goTrimSpace f = f ∧ f ≠ []) ∧
    splitStatements "".data = [] ∧
    splitStatements "   ".data = [] ∧
    splitStatements "SELECT 1;; SELECT 2".data =
      ["SELECT 1".data, "SELECT 2".data] := by
  refine ⟨?_, by decide, by decide, by decide⟩
  intro s f hf
  unfold splitStatements at hf
  rcases List.mem_append.1 hf with h' | h'
  · exact foldl_fragments_invariant s initSplitState (by intro f hf; cases hf) f h'
  · by_cases hlast : goTrimSpace (scanSplit s).buffer = []
    · rw [if_pos hlast] at h'; cases h'
    · rw [if_neg hlast, List.mem_singleton] at h'
      subst h'
      exact ⟨goTrimSpace_idem _, hlast⟩

/-- Witness for C5: the first fragment of the "SELECT 1;; SELECT 2"
example is trimmed and non-empty. -/
theorem c5_split_fragments_trimmed_nonempty_witness :
    goTrimSpace "SELECT 1".data = "SELECT 1".data ∧ "SELECT 1".data ≠ [] :=
  c5_split_fragments_trimmed_nonempty.1 "SELECT 1;; SELECT 2".data
    "SELECT 1".data (by decide)

/-! ### C1: every semicolon quoted

`noUnquotedSemi` runs the same quote-tracking automaton as `splitStep`
and reports whether any `;` is met while outside a quoted region. -/

def noUnquotedSemi : Bool → Char → GoStr → Bool
  | _, _, [] => true
  | inQ, qc, c :: rest =>
    if c = sqc ∨ c = dqc then
      if inQ = false then noUnquotedSemi true c rest
      else if c = qc then noUnquotedSemi false qc rest
      else noUnquotedSemi inQ qc rest
    else if c = ';' ∧ inQ = false then false
    else noUnquotedSemi inQ qc rest

def allSemisQuoted (s : GoStr) : Bool := noUnquotedSemi false (Char.ofNat 0) s

/-- If every `;` in `s` is inside a quoted region (as tracked from state
`st`), the splitter loop emits no fragment and buffers all of `s`. -/
theorem scan_no_split (s : GoStr) : ∀ st : SplitState,
    noUnquotedSemi st.inQuote st.quoteChar s = true →
    (s.foldl splitStep st).fragments = st.fragments ∧
    (s.foldl splitStep st).buffer = st.buffer ++ s := by
  induction s with
  | nil => intro st _; simp
  | cons c rest ih =>
    intro st h
    rw [List.foldl_cons]
    unfold noUnquotedSemi at h
    by_cases h1 : c = sqc ∨ c = dqc
    · rw [if_pos h1] at h
      by_cases h2 : st.inQuote = false
      · rw [if_pos h2] at h
        have hstep : splitStep st c =
            { st with inQuote := true, quoteChar := c, buffer := st.buffer ++ [c] } := by
          unfold splitStep; rw [if_pos h1, if_pos h2]
        rw [hstep]
        obtain ⟨hf, hb⟩ := ih
          { st with inQuote := true, quoteChar := c, buffer := st.buffer ++ [c] } h
        exact ⟨hf, by rw [hb]; simp⟩
      · rw [if_neg h2] at h
        by_cases h3 : c = st.quoteChar
        · rw [if_pos h3] at h
          have hstep : splitStep st c =
              { st with inQuote := false, buffer := st.buffer ++ [c] } := by
            unfold splitStep; rw [if_pos h1, if_neg h2, if_pos h3]
          rw [hstep]
          obtain ⟨hf, hb⟩ := ih
            { st with inQuote := false, buffer := st.buffer ++ [c] } h
          exact ⟨hf, by rw [hb]; simp⟩
        · rw [if_neg h3] at h
          have hstep : splitStep st c = { st with buffer := st.buffer ++ [c] } := by
            unfold splitStep; rw [if_pos h1, if_neg h2, if_neg h3]
          rw [hstep]
          obtain ⟨hf, hb⟩ := ih { st with buffer := st.buffer ++ [c] } h
          exact ⟨hf, by rw [hb]; simp⟩
    · rw [if_neg h1] at h
      by_cases h4 : c = ';' ∧ st.inQuote = false
      · rw [if_pos h4] at h; cases h
      · rw [if_neg h4] at h
        have hstep : splitStep st c = { st with buffer := st.buffer ++ [c] } := by
          unfold splitStep; rw [if_neg h1, if_neg h4]
        rw [hstep]
        obtain ⟨hf, hb⟩ := ih { st with buffer := st.buffer ++ [c] } h
        exact ⟨hf, by rw [hb]; simp⟩

/-- C1 (amended): if every semicolon of the input lies inside a quoted
region, `splitStatements` returns no fragment when the input is all
whitespace, and otherwise exactly one fragment: the input *trimmed of
surrounding whitespace* (not necessarily the whole input verbatim). -/
theorem c1_quoted_semicolons_amended (s : GoStr) (h : allSemisQuoted s = true) :
    splitStatements s = if goTrimSpace s = [] then [] else [goTrimSpace s] := by
  obtain ⟨hf, hb⟩ := scan_no_split s initSplitState h
  unfold splitStatements scanSplit
  simp only [hf, hb]
  simp [initSplitState]

def c1Example : GoStr := "CREATE USER ".data ++ [sqc] ++ "a;b".data ++ [sqc]

def c1CexInput : GoStr := c1Example ++ " ".data

/-- Counterexample to C1 as stated: in `"CREATE USER 'a;b' "` (note the
trailing space) every semicolon is inside a quoted region, yet the
result is the *trimmed* input, not the whole input. -/
theorem c1_counterexample :
    allSemisQuoted c1CexInput = true ∧
    splitStatements c1CexInput ≠ [c1CexInput] ∧
    splitStatements c1CexInput = [c1Example] := by
  refine ⟨by decide, by decide, by decide⟩

/-- Witness for C1 (amended) at the spec's own example, where it yields
exactly one fragment equal to the input. -/
theorem c1_quoted_semicolons_amended_witness :
    (splitStatements c1Example =
      if goTrimSpace c1Example = [] then [] else [goTrimSpace c1Example]) ∧
    splitStatements c1Example = [c1Example] :=
  ⟨c1_quoted_semicolons_amended c1Example (by decide), by decide⟩

/-! ### C10: unterminated quote swallows the rest of the input -/

/-- While the splitter is inside a quoted region, any further characters
that do not contain the closing quote character are buffered verbatim:
no `;` among them ends a fragment. -/
theorem scan_inQuote_append (t : GoStr) : ∀ st : SplitState,
    st.inQuote = true → st.quoteChar ∉ t →
    t.foldl splitStep st = { st with buffer := st.buffer ++ t } := by
  induction t with
  | nil => intro st _ _; simp
  | cons c rest ih =>
    intro st hq hnot
    have hcne : ¬(c = st.quoteChar) := by
      intro hh
      exact hnot (hh ▸ List.mem_cons_self c rest)
    have hstep : splitStep st c = { st with buffer := st.buffer ++ [c] } := by
      unfold splitStep
      by_cases h1 : c = sqc ∨ c = dqc
      · rw [if_pos h1, if_neg (by simp [hq]), if_neg hcne]
      · rw [if_neg h1, if_neg (by simp [hq])]
    rw [List.foldl_cons, hstep]
    have hrest : ({ st with buffer := st.buffer ++ [c] } : SplitState).quoteChar ∉ rest := by
      intro hm
      exact hnot (List.mem_cons_of_mem c hm)
    rw [ih { st with buffer := st.buffer ++ [c] } (by simp [hq]) hrest]
    simp

/-- Once inside a quoted region the current buffer contains the opening
quote character. -/
theorem foldl_buffer_quote (s : GoStr) : ∀ st : SplitState,
    (st.inQuote = true → ∃ c ∈ st.buffer, c = sqc ∨ c = dqc) →
    (s.foldl splitStep st).inQuote = true →
    ∃ c ∈ (s.foldl splitStep st).buffer, c = sqc ∨ c = dqc := by
  induction s with
  | nil => intro st h; exact h
  | cons c rest ih =>
    intro st h
    rw [List.foldl_cons]
    refine ih (splitStep st c) ?_
    intro hq
    unfold splitStep
    by_cases h1 : c = sqc ∨ c = dqc
    · rw [if_pos h1]
      by_cases h2 : st.inQuote = false
      · rw [if_pos h2]
        exact ⟨c, by simp, h1⟩
      · by_cases h3 : c = st.quoteChar
        · rw [if_neg h2, if_pos h3]
          obtain ⟨d, hd, hdq⟩ := h (by revert h2; cases st.inQuote <;> simp)
          exact ⟨d, by simp [List.mem_append.2 (Or.inl hd)], hdq⟩
        · rw [if_neg h2, if_neg h3]
          obtain ⟨d, hd, hdq⟩ := h (by revert h2; cases st.inQuote <;> simp)
          exact ⟨d, List.mem_append.2 (Or.inl hd), hdq⟩
    · rw [if_neg h1]
      by_cases h4 : c = ';' ∧ st.inQuote = false
      · rw [if_pos h4]
        by_cases h5 : goTrimSpace st.buffer = []
        · exfalso
          unfold splitStep at hq
          rw [if_neg h1, if_pos h4] at hq
          simp only [h5, if_pos rfl] at hq
          rw [h4.2] at hq
          cases hq
        · exfalso
          unfold splitStep at hq
          rw [if_neg h1, if_pos h4] at hq
          simp only [if_neg h5] at hq
          rw [h4.2] at hq
          cases hq
      · rw [if_neg h4]
        have hst : st.inQuote = true := by
          unfold splitStep at hq
          rw [if_neg h1, if_neg h4] at hq
          exact hq
        obtain ⟨d, hd, hdq⟩ := h hst
        exact ⟨d, List.mem_append.2 (Or.inl hd), hdq⟩

/-- C10: if scanning `s` ends inside a quoted region and the rest `t` of
the input never closes that quote, then every character of `t`
(including every `;`) is treated as quoted, and the whole remainder
after the last completed fragment comes back, trimmed, as a single
final fragment. -/
theorem c10_unterminated_quote_remainder (s t : GoStr)
    (h1 : (scanSplit s).inQuote = true) (h2 : (scanSplit s).quoteChar ∉ t) :
    splitStatements (s ++ t) =
      (scanSplit s).fragments ++ [goTrimSpace ((scanSplit s).buffer ++ t)] := by
  have hfold : scanSplit (s ++ t) =
      { scanSplit s with buffer := (scanSplit s).buffer ++ t } := by
    unfold scanSplit
    rw [List.foldl_append]
    exact scan_inQuote_append t _ h1 h2
  obtain ⟨c, hc, hcq⟩ := foldl_buffer_quote s initSplitState (by intro h; cases h) h1
  have hcs : goIsSpace c = false := by
    rcases hcq with rfl | rfl <;> decide
  have hne : goTrimSpace ((scanSplit s).buffer ++ t) ≠ [] :=
    goTrimSpace_ne_nil_of_mem _ c (List.mem_append.2 (Or.inl hc)) hcs
  unfold splitStatements
  simp only [hfold]
  rw [if_neg hne]

def c10s : GoStr := "A ".data ++ [sqc]

def c10t : GoStr := "; B; C".data

/-- Witness for C10: `splitStatements "A '; B; C"` returns exactly one
fragment equal to the full input. -/
theorem c10_unterminated_quote_remainder_witness :
    (splitStatements (c10s ++ c10t) =
      (scanSplit c10s).fragments ++ [goTrimSpace ((scanSplit c10s).buffer ++ c10t)]) ∧
    splitStatements (c10s ++ c10t) = [c10s ++ c10t] :=
  ⟨c10_unterminated_quote_remainder c10s c10t (by decide) (by decide), by decide⟩

/-- Helper shared by several claims: every fragment of `splitStatements`
is trimmed and non-empty. -/
theorem splitStatements_trimmed (s : GoStr) :
    ∀ f ∈ splitStatements s, goTrimSpace f = f ∧ f ≠ [] := by
  intro f hf
  unfold splitStatements at hf
  rcases List.mem_append.1 hf with h' | h'
  · exact foldl_fragments_invariant s initSplitState (by intro g hg; cases hg) f h'
  · by_cases hlast : goTrimSpace (scanSplit s).buffer = []
    · rw [if_pos hlast] at h'; cases h'
    · rw [if_neg hlast, List.mem_singleton] at h'
      subst h'
      exact ⟨goTrimSpace_idem _, hlast⟩

/-! ### Placeholder substitution and statement execution
(`executeStatementsWithMap`, clickhouse.go:233-257)

`strings.ReplaceAll` and the SDK's `dbutil.QueryHelper` (which replaces
each `{{key}}` of the map by its value via `strings.ReplaceAll`) are
embedded directly; the map is modelled as an association list, its
iteration order immaterial to the claims. -/

def replaceAll (s pat rep : GoStr) : GoStr :=
  match s with
  | [] => if pat = [] then rep else []
  | c :: rest =>
    if hpre : pat ≠ [] ∧ pat.isPrefixOf (c :: rest) then
      rep ++ replaceAll (List.drop pat.length (c :: rest)) pat rep
    else if pat = [] then
      rep ++ c :: replaceAll rest pat rep
    else
      c :: replaceAll rest pat rep
termination_by s.length
decreasing_by
  · have hp : 0 < pat.length := List.length_pos.2 hpre.1
    simp only [List.length_drop, List.length_cons]
    omega
  · simp [List.length_cons]
  · simp [List.length_cons]

/-- The `{{key}}` marker. -/
def placeholder (k : GoStr) : GoStr := [lbr, lbr] ++ k ++ [rbr, rbr]

/-- `dbutil.QueryHelper`: substitute each `{{key}}` with its value. -/
def queryHelper (tpl : GoStr) (m : List (GoStr × GoStr)) : GoStr :=
  m.foldl (fun t kv => replaceAll t (placeholder kv.1) kv.2) tpl

/-- Abstract driver-level error (`error` values returned by
`database/sql`). -/
structure DriverErr where
  code : Nat
deriving Repr, DecidableEq

/-- The Go `error` values this plugin can surface, preserving the
wrapping structure of the corresponding `fmt.Errorf` calls. -/
inductive GoErr where
  | notInitialized
  | openFailed (cause : DriverErr)
  | pingFailed (cause : DriverErr)
  | configError (msg : GoStr)
  | execFailed (fragment : GoStr) (cause : DriverErr)
  | noChanges
  | noCreationStatements
  | wrapped (msg : GoStr) (cause : GoErr)
deriving Repr, DecidableEq

/-- Result of a lifecycle call's statement execution: the fragments that
were executed successfully (in order), and the error, if any, that
aborted the call. -/
structure ExecOutcome where
  executed : List GoStr
  err : Option GoErr
deriving Repr, DecidableEq

/-- The inner fragment loop of `executeStatementsWithMap`
(clickhouse.go:243-253): trim, skip empties, run `db.ExecContext`, abort
on the first failure wrapping the failing fragment.  `ex` is the
driver oracle: the outcome of `db.ExecContext` on a given fragment. -/
def runFrags (ex : GoStr → Option DriverErr) : List GoStr → ExecOutcome
  | [] => { executed := [], err := none }
  | f :: rest =>
    if goTrimSpace f = [] then runFrags ex rest
    else
      match ex (goTrimSpace f) with
      | some e =>
        { executed := [], err := some (GoErr.execFailed (goTrimSpace f) e) }
      | none =>
        { executed := goTrimSpace f :: (runFrags ex rest).executed,
          err := (runFrags ex rest).err }

/-- The outer statement loop of `executeStatementsWithMap`
(clickhouse.go:239-254). -/
def runStatements (ex : GoStr → Option DriverErr) (m : List (GoStr × GoStr)) :
    List GoStr → ExecOutcome
  | [] => { executed := [], err := none }
  | stl :: rest =>
    match (runFrags ex (splitStatements (queryHelper stl m))).err with
    | some _ => runFrags ex (splitStatements (queryHelper stl m))
    | none =>
      { executed := (runFrags ex (splitStatements (queryHelper stl m))).executed ++
          (runStatements ex m rest).executed,
        err := (runStatements ex m rest).err }

/-- `executeStatementsWithMap` (clickhouse.go:233-257): obtain the
connection (its outcome abstracted as `conn`), then run every statement.
-/
def executeStatementsWithMap (conn : Option GoErr) (ex : GoStr → Option DriverErr)
    (statements : List GoStr) (m : List (GoStr × GoStr)) : ExecOutcome :=
  match conn with
  | some e => { executed := [], err := some e }
  | none => runStatements ex m statements

/-- Modelled from the spec: "substitute placeholders, split into
fragments, execute fragments in order against the current connection;
the first execution failure aborts the whole call and returns an
ExecutionError naming the failing fragment — statements already executed
are NOT rolled back."  Runs the given fragments in order; the first
failing fragment stops everything and is reported, wrapped with the
driver error; the successfully executed prefix is recorded and never
removed. -/
def runFirstFailure (ex : GoStr → Option DriverErr) : List GoStr → ExecOutcome
  | [] => { executed := [], err := none }
  | f :: rest =>
    match ex f with
    | some e => { executed := [], err := some (GoErr.execFailed f e) }
    | none =>
      { executed := f :: (runFirstFailure ex rest).executed,
        err := (runFirstFailure ex rest).err }

theorem runFrags_eq_runFirstFailure (ex : GoStr → Option DriverErr)
    (frags : List GoStr) (h : ∀ f ∈ frags, goTrimSpace f = f ∧ f ≠ []) :
    runFrags ex frags = runFirstFailure ex frags := by
  induction frags with
  | nil => rfl
  | cons f rest ih =>
    obtain ⟨h1, h2⟩ := h f (List.mem_cons_self f rest)
    have hr := ih (fun g hg => h g (List.mem_cons_of_mem f hg))
    unfold runFrags runFirstFailure
    rw [h1, if_neg h2, hr]

theorem runFirstFailure_append (ex : GoStr → Option DriverErr) (a b : List GoStr) :
    runFirstFailure ex (a ++ b) =
      match (runFirstFailure ex a).err with
      | some _ => runFirstFailure ex a
      | none =>
        { executed := (runFirstFailure ex a).executed ++ (runFirstFailure ex b).executed,
          err := (runFirstFailure ex b).err } := by
  induction a with
  | nil => simp [runFirstFailure]
  | cons f a' ih =>
    cases hex : ex f with
    | some e => simp [runFirstFailure, hex]
    | none =>
      simp only [List.cons_append, runFirstFailure, hex, List.append_eq]
      rw [ih]
      cases herr : (runFirstFailure ex a').err <;> simp [herr]

theorem runStatements_eq (ex : GoStr → Option DriverErr) (m : List (GoStr × GoStr))
    (stmts : List GoStr) :
    runStatements ex m stmts =
      runFirstFailure ex
        ((stmts.map (fun stl => splitStatements (queryHelper stl m))).flatten) := by
  induction stmts with
  | nil => rfl
  | cons stl rest ih =>
    unfold runStatements
    rw [runFrags_eq_runFirstFailure ex _ (splitStatements_trimmed _)]
    simp only [List.map_cons, List.flatten_cons]
    rw [runFirstFailure_append, ih]

/-- C2: each statement of a lifecycle call (`NewUser`, `UpdateUser`,
`DeleteUser` all execute through `executeStatementsWithMap`) is
placeholder-substituted, split into fragments, and the fragments run in
order; the first failing fragment aborts the whole call with an
`execFailed` error naming that fragment and wrapping the driver error,
nothing after it runs, and the successfully executed prefix is recorded
as executed — never rolled back. -/
theorem c2_execute_first_failure_aborts (ex : GoStr → Option DriverErr)
    (stmts : List GoStr) (m : List (GoStr × GoStr)) :
    executeStatementsWithMap none ex stmts m =
      runFirstFailure ex
        ((stmts.map (fun stl => splitStatements (queryHelper stl m))).flatten) := by
  unfold executeStatementsWithMap
  exact runStatements_eq ex m stmts

/-! ### UpdateUser (clickhouse.go:157-210)

The request records mirror `dbplugin.UpdateUserRequest`.  Time
formatting (`time.DateTime`) is outside the claims; `ChangeExpiration`
carries the already formatted expiration string. -/

structure ChangePassword where
  newPassword : GoStr
  statements : List GoStr
deriving Repr, DecidableEq

structure ChangeExpiration where
  newExpirationStr : GoStr
  statements : List GoStr
deriving Repr, DecidableEq

structure UpdateUserRequest where
  username : GoStr
  password : Option ChangePassword
  expiration : Option ChangeExpiration
deriving Repr, DecidableEq

/-- `defaultRotateCredentialsStatement` (clickhouse.go:27):
`ALTER USER IF EXISTS <q>{{name}}<q> IDENTIFIED BY <q>{{password}}<q>`
with `<q>` the single quote. -/
def defaultRotateCredentialsStatement : GoStr :=
  "ALTER USER IF EXISTS ".data ++ [sqc] ++ placeholder "name".data ++ [sqc] ++
    " IDENTIFIED BY ".data ++ [sqc] ++ placeholder "password".data ++ [sqc]

/-- `defaultRevocationStatement` (clickhouse.go:26):
`DROP USER IF EXISTS <q>{{name}}<q>`. -/
def defaultRevocationStatement : GoStr :=
  "DROP USER IF EXISTS ".data ++ [sqc] ++ placeholder "name".data ++ [sqc]

/-- `updateUserPassword` (clickhouse.go:183-194): default rotation
statement when none supplied, then execute with name/username/password
placeholders. -/
def updateUserPassword (conn : Option GoErr) (ex : GoStr → Option DriverErr)
    (username : GoStr) (cp : ChangePassword) : ExecOutcome :=
  executeStatementsWithMap conn ex
    (if cp.statements = [] then [defaultRotateCredentialsStatement] else cp.statements)
    [("name".data, username), ("username".data, username),
     ("password".data, cp.newPassword)]

/-- `updateUserExpiration` (clickhouse.go:196-210): with no supplied
statements there is nothing to do; otherwise execute with
name/username/expiration placeholders. -/
def updateUserExpiration (conn : Option GoErr) (ex : GoStr → Option DriverErr)
    (username : GoStr) (ce : ChangeExpiration) : ExecOutcome :=
  if ce.statements = [] then { executed := [], err := none }
  else
    executeStatementsWithMap conn ex ce.statements
      [("name".data, username), ("username".data, username),
       ("expiration".data, ce.newExpirationStr)]

/-- `UpdateUser` (clickhouse.go:158-181): reject empty requests, then
run the password path and, if it succeeded, the expiration path. -/
def goUpdateUser (conn : Option GoErr) (ex : GoStr → Option DriverErr)
    (req : UpdateUserRequest) : ExecOutcome :=
  if req.password = none ∧ req.expiration = none then
    { executed := [], err := some GoErr.noChanges }
  else
    match req.password with
    | some cp =>
      match (updateUserPassword conn ex req.username cp).err with
      | some _ => updateUserPassword conn ex req.username cp
      | none =>
        match req.expiration with
        | some ce =>
          { executed := (updateUserPassword conn ex req.username cp).executed ++
              (updateUserExpiration conn ex req.username ce).executed,
            err := (updateUserExpiration conn ex req.username ce).err }
        | none => updateUserPassword conn ex req.username cp
    | none =>
      match req.expiration with
      | some ce => updateUserExpiration conn ex req.username ce
      | none => { executed := [], err := none }

/-- C6: an `UpdateUser` whose expiration change is present but carries
zero statements makes the expiration path execute nothing and return
success — no default statement is substituted, no error is raised; with
no password change the whole call is a silent no-op success. -/
theorem c6_expiration_without_statements_noop (conn : Option GoErr)
    (ex : GoStr → Option DriverErr) (username : GoStr) (ce : ChangeExpiration)
    (h : ce.statements = []) :
    updateUserExpiration conn ex username ce = { executed := [], err := none } ∧
    ∀ req : UpdateUserRequest, req.password = none → req.expiration = some ce →
      goUpdateUser conn ex req = { executed := [], err := none } := by
  have hexp : updateUserExpiration conn ex username ce =
      { executed := [], err := none } := by
    unfold updateUserExpiration
    rw [if_pos h]
  refine ⟨hexp, ?_⟩
  intro req hp he
  unfold goUpdateUser
  rw [if_neg (by simp [he])]
  rw [hp, he]
  simp [updateUserExpiration, h]

def c6ce : ChangeExpiration :=
  { newExpirationStr := "2025-01-01 00:00:00".data, statements := [] }

def c6req : UpdateUserRequest :=
  { username := "u".data, password := none, expiration := some c6ce }

/-- Witness for C6 at a concrete request. -/
theorem c6_expiration_without_statements_noop_witness :
    updateUserExpiration none (fun _ => none) "u".data c6ce =
      { executed := [], err := none } ∧
    goUpdateUser none (fun _ => none) c6req = { executed := [], err := none } :=
  ⟨(c6_expiration_without_statements_noop none (fun _ => none) "u".data c6ce rfl).1,
   (c6_expiration_without_statements_noop none (fun _ => none) "u".data c6ce rfl).2
      c6req rfl rfl⟩

/-! ### Connection producer (connection_producer.go:21-136)

`database/sql` handles are abstracted: a `DBHandle` records the identity
returned by `sql.Open` plus the pool settings applied to it; a `ConnEnv`
oracle gives the outcomes of `sql.Open`, `db.PingContext` and
`db.Close`.  `closedIds` is a ghost log of the handles on which `Close`
was invoked. -/

structure DBHandle where
  id : Nat
  maxOpen : Int
  maxIdle : Int
  lifetimeSeconds : Option Int
deriving Repr, DecidableEq

structure ConnEnv where
  pingOk : Nat → Bool
  pingErr : Nat → DriverErr
  openResult : Except DriverErr Nat
  closeErr : Nat → Option DriverErr

structure ProducerState where
  connectionURL : GoStr
  host : GoStr
  port : Int
  username : GoStr
  password : GoStr
  database : GoStr
  tls : Bool
  tlsSkipVerify : Bool
  maxOpenConnections : Int
  maxIdleConnections : Int
  maxConnectionLifetimeS : Int
  debug : Bool
  initialized : Bool
  db : Option DBHandle
  closedIds : List Nat
deriving Repr, DecidableEq

/-- A handle as returned by `sql.Open` before any setting is applied
(Go defaults: unlimited open, 2 idle, unlimited lifetime). -/
def freshHandle (n : Nat) : DBHandle :=
  { id := n, maxOpen := 0, maxIdle := 2, lifetimeSeconds := none }

/-- connection_producer.go:113-125: `sql.Open`, then
`SetMaxOpenConns`/`SetMaxIdleConns` always and `SetConnMaxLifetime` only
when the configured lifetime is positive; the fresh handle is cached. -/
def openFreshConn (st : ProducerState) (env : ConnEnv) :
    Except GoErr DBHandle × ProducerState :=
  match env.openResult with
  | .error e => (.error (GoErr.openFailed e), st)
  | .ok n =>
    (.ok { freshHandle n with
        maxOpen := st.maxOpenConnections,
        maxIdle := st.maxIdleConnections,
        lifetimeSeconds := if st.maxConnectionLifetimeS > 0 then
            some st.maxConnectionLifetimeS
          else (freshHandle n).lifetimeSeconds },
     { st with db := some { freshHandle n with
        maxOpen := st.maxOpenConnections,
        maxIdle := st.maxIdleConnections,
        lifetimeSeconds := if st.maxConnectionLifetimeS > 0 then
            some st.maxConnectionLifetimeS
          else (freshHandle n).lifetimeSeconds } })

/-- `Connection` (connection_producer.go:99-126). -/
def producerConnection (st : ProducerState) (env : ConnEnv) :
    Except GoErr DBHandle × ProducerState :=
  if st.initialized = false then (.error GoErr.notInitialized, st)
  else
    match st.db with
    | some h =>
      if env.pingOk h.id then (.ok h, st)
      else openFreshConn { st with db := none, closedIds := st.closedIds ++ [h.id] } env
    | none => openFreshConn st env

/-- `Close` (connection_producer.go:129-136).  `Clickhouse.Close`
(clickhouse.go:313-318) only wraps this in the instance lock. -/
def producerClose (st : ProducerState) (env : ConnEnv) :
    Option DriverErr × ProducerState :=
  match st.db with
  | some h =>
    (env.closeErr h.id, { st with db := none, closedIds := st.closedIds ++ [h.id] })
  | none => (none, st)

/-- The handle `Connection` caches after opening fresh: the configured
pool limits applied to a newly opened handle. -/
def poolConfigured (st : ProducerState) (n : Nat) : DBHandle :=
  { id := n, maxOpen := st.maxOpenConnections, maxIdle := st.maxIdleConnections,
    lifetimeSeconds := if st.maxConnectionLifetimeS > 0 then
        some st.maxConnectionLifetimeS
      else none }

/-- C4: `Connection` fails with the not-initialized error whenever `Init`
has not succeeded; when initialized it returns the cached handle exactly
when the liveness probe succeeds; on probe failure the cached handle is
closed (never reused or repaired) and a fresh handle with the configured
pool limits is opened and cached — or the open error is returned with no
handle cached. -/
theorem c4_connection_probe_and_replace (st : ProducerState) (env : ConnEnv) :
    (st.initialized = false →
      producerConnection st env = (.error GoErr.notInitialized, st)) ∧
    (∀ h, st.initialized = true → st.db = some h → env.pingOk h.id = true →
      producerConnection st env = (.ok h, st)) ∧
    (∀ h, st.initialized = true → st.db = some h → env.pingOk h.id = false →
      (∀ e, env.openResult = .error e →
        producerConnection st env =
          (.error (GoErr.openFailed e),
            { st with db := none, closedIds := st.closedIds ++ [h.id] })) ∧
      (∀ n, env.openResult = .ok n →
        producerConnection st env =
          (.ok (poolConfigured st n),
            { st with db := some (poolConfigured st n), closedIds := st.closedIds ++ [h.id] }))) := by
  refine ⟨?_, ?_, ?_⟩
  · intro h0
    unfold producerConnection
    rw [if_pos h0]
  · intro h h1 h2 h3
    unfold producerConnection
    rw [if_neg (by rw [h1]; simp), h2]
    simp [h3]
  · intro h h1 h2 h3
    constructor
    · intro e he
      unfold producerConnection
      rw [if_neg (by rw [h1]; simp), h2]
      simp only [h3, if_neg]
      unfold openFreshConn
      rw [he]
      rfl
    · intro n hn
      unfold producerConnection
      rw [if_neg (by rw [h1]; simp), h2]
      simp only [h3, if_neg]
      unfold openFreshConn
      rw [hn]
      rfl

def baseProducerState : ProducerState :=
  { connectionURL := [], host := [], port := 0, username := [], password := [],
    database := [], tls := false, tlsSkipVerify := false,
    maxOpenConnections := 4, maxIdleConnections := 4,
    maxConnectionLifetimeS := 0, debug := false,
    initialized := false, db := none, closedIds := [] }

def c4Handle : DBHandle := { id := 5, maxOpen := 4, maxIdle := 4, lifetimeSeconds := none }

def c4St : ProducerState :=
  { baseProducerState with initialized := true, db := some c4Handle }

def c4Env : ConnEnv :=
  { pingOk := fun _ => false, pingErr := fun _ => { code := 1 },
    openResult := .ok 6, closeErr := fun _ => none }

/-- Witness for C4: a stale cached handle is closed and replaced by a
fresh one carrying the configured pool limits. -/
theorem c4_connection_probe_and_replace_witness :
    producerConnection c4St c4Env =
      (.ok (poolConfigured c4St 6),
        { c4St with db := some (poolConfigured c4St 6), closedIds := [5] }) :=
  ((c4_connection_probe_and_replace c4St c4Env).2.2 c4Handle rfl rfl rfl).2 6 rfl

/-- C8 (amended): `Close` releases the cached handle if present (its
`Close` is invoked) and repeated `Close` calls are no-ops returning no
error; however the Closed state is not terminal: `initialized` is left
untouched, so later operations can still obtain fresh connections. -/
theorem c8_close_idempotent_releases (st : ProducerState) (env : ConnEnv) :
    (producerClose st env).2.db = none ∧
    producerClose (producerClose st env).2 env = (none, (producerClose st env).2) ∧
    (producerClose st env).2.initialized = st.initialized ∧
    (∀ h, st.db = some h →
      (producerClose st env).2.closedIds = st.closedIds ++ [h.id]) := by
  cases hdb : st.db with
  | none => simp [producerClose, hdb]
  | some h => simp [producerClose, hdb]

def c8Env : ConnEnv :=
  { pingOk := fun _ => true, pingErr := fun _ => { code := 1 },
    openResult := .ok 7, closeErr := fun _ => none }

def c8St : ProducerState :=
  { baseProducerState with initialized := true, db := some c4Handle }

/-- Counterexample to C8 as stated: the Closed state is *not* terminal.
After `Close`, the producer still reports itself initialized, and a
subsequent `Connection` call succeeds, opening and caching a fresh
handle — an operation transitions the manager out of the Closed state.
-/
theorem c8_counterexample :
    (producerClose c8St c8Env).2.db = none ∧
    (producerClose c8St c8Env).2.initialized = true ∧
    (producerConnection (producerClose c8St c8Env).2 c8Env).1 =
      .ok (poolConfigured c8St 7) ∧
    (producerConnection (producerClose c8St c8Env).2 c8Env).2.db =
      some (poolConfigured c8St 7) := by
  refine ⟨rfl, rfl, rfl, rfl⟩

/-- Witness for C8 (amended) at a concrete closed-over handle. -/
theorem c8_close_idempotent_releases_witness :
    (producerClose c8St c8Env).2.db = none ∧
    producerClose (producerClose c8St c8Env).2 c8Env =
      (none, (producerClose c8St c8Env).2) ∧
    (producerClose c8St c8Env).2.closedIds = [5] :=
  ⟨(c8_close_idempotent_releases c8St c8Env).1,
   (c8_close_idempotent_releases c8St c8Env).2.1,
   (c8_close_idempotent_releases c8St c8Env).2.2.2 c4Handle rfl⟩

/-! ### Go `net/url` (used by `BuildConnectionString`,
`NewConnStringBuilderFromConnString` and `Init`)

The standard library's escaping, URL printing and URL parsing are
embedded at the level this plugin exercises: scheme `://` URLs with
host:port, path, and query; IPv6 host literals and opaque URLs are not
modelled (no claim touches them; the parser rejects `[` hosts).  Go
works on UTF-8 bytes: `utf8Bytes` maps a rune to its bytes, so escaping
is byte-faithful; unescaping leaves decoded bytes as single runes, which
coincides with Go on ASCII (every claim input is ASCII). -/

inductive EncMode where
  | host
  | path
  | pathSegment
  | userPassword
  | queryComponent
deriving Repr, DecidableEq

def isAsciiLetterN (b : Nat) : Bool := (65 ≤ b && b ≤ 90) || (97 ≤ b && b ≤ 122)

def isDigitN (b : Nat) : Bool := 48 ≤ b && b ≤ 57

/-- `shouldEscape` from net/url, byte-for-byte (character classes are
written as code points). -/
def shouldEscapeByte (b : Nat) (mode : EncMode) : Bool :=
  if isAsciiLetterN b || isDigitN b then false
  else if mode = EncMode.host &&
      ([33, 36, 38, 39, 40, 41, 42, 43, 44, 59, 61, 58, 91, 93, 60, 62, 34] :
        List Nat).contains b then false
  else if ([45, 95, 46, 126] : List Nat).contains b then false
  else if ([36, 38, 43, 44, 47, 58, 59, 61, 63, 64] : List Nat).contains b then
    match mode with
    | .path => b == 63
    | .pathSegment => b == 47 || b == 59 || b == 44 || b == 63
    | .userPassword => b == 64 || b == 47 || b == 63 || b == 58
    | .queryComponent => true
    | .host => true
  else true

def upperHexDigit (n : Nat) : Char :=
  if n < 10 then Char.ofNat (48 + n) else Char.ofNat (55 + n)

/-- UTF-8 encoding of a code point. -/
def utf8Bytes (n : Nat) : List Nat :=
  if n < 0x80 then [n]
  else if n < 0x800 then [0xC0 + n / 64, 0x80 + n % 64]
  else if n < 0x10000 then [0xE0 + n / 4096, 0x80 + (n / 64) % 64, 0x80 + n % 64]
  else [0xF0 + n / 262144, 0x80 + (n / 4096) % 64, 0x80 + (n / 64) % 64, 0x80 + n % 64]

/-- net/url `escape`: per byte, keep, `+`-encode a space in query
components, or percent-encode in upper-case hex. -/
def escape (s : GoStr) (mode : EncMode) : GoStr :=
  s.flatMap (fun c =>
    (utf8Bytes c.toNat).flatMap (fun b =>
      if b == 32 && mode == EncMode.queryComponent then ['+']
      else if shouldEscapeByte b mode then
        ['%', upperHexDigit (b / 16), upperHexDigit (b % 16)]
      else [Char.ofNat b]))

def unhexDigit (c : Char) : Option Nat :=
  if 48 ≤ c.toNat && c.toNat ≤ 57 then some (c.toNat - 48)
  else if 97 ≤ c.toNat && c.toNat ≤ 102 then some (c.toNat - 87)
  else if 65 ≤ c.toNat && c.toNat ≤ 70 then some (c.toNat - 55)
  else none

/-- net/url `unescape`: `%XX` decoding (with the host-mode restrictions),
`+` to space in query components, and the host-mode raw-byte check.
Decoded non-ASCII bytes stay single runes (ASCII-faithful). -/
def unescape : GoStr → EncMode → Option GoStr
  | [], _ => some []
  | c :: rest, mode =>
    if c = '%' then
      match rest with
      | h1 :: h2 :: rest2 =>
        match unhexDigit h1, unhexDigit h2 with
        | some d1, some d2 =>
          let v := d1 * 16 + d2
          if mode = EncMode.host ∧ d1 < 8 ∧ ¬(h1 = '2' ∧ h2 = '5') then none
          else
            match unescape rest2 mode with
            | some t => some (Char.ofNat v :: t)
            | none => none
        | _, _ => none
      | _ => none
    else if c = '+' then
      match unescape rest mode with
      | some t => some ((if mode = EncMode.queryComponent then ' ' else '+') :: t)
      | none => none
    else
      if mode = EncMode.host ∧ c.toNat < 0x80 ∧ shouldEscapeByte c.toNat mode then none
      else
        match unescape rest mode with
        | some t => some (c :: t)
        | none => none

def goItoaAux : Nat → Nat → GoStr
  | 0, _ => []
  | fuel + 1, n =>
    if n < 10 then [Char.ofNat (48 + n)]
    else goItoaAux fuel (n / 10) ++ [Char.ofNat (48 + n % 10)]

/-- `strconv.Itoa` on a natural number (`n + 1` fuel always suffices). -/
def goItoa (n : Nat) : GoStr := goItoaAux (n + 1) n

/-- `fmt.Sprintf("%d", i)` on a Go int. -/
def goIntRepr (i : Int) : GoStr :=
  if i < 0 then '-' :: goItoa i.natAbs else goItoa i.toNat

def digitsToNat (l : GoStr) : Nat := l.foldl (fun a c => a * 10 + (c.toNat - 48)) 0

/-- `strconv.Atoi` (64-bit int bounds). -/
def goAtoi (l : GoStr) : Option Int :=
  match l with
  | [] => none
  | c :: rest =>
    if c = '-' then
      if rest ≠ [] ∧ rest.all (fun d => isDigitN d.toNat) then
        if digitsToNat rest ≤ 2 ^ 63 then some (-(digitsToNat rest : Int)) else none
      else none
    else if c = '+' then
      if rest ≠ [] ∧ rest.all (fun d => isDigitN d.toNat) then
        if digitsToNat rest < 2 ^ 63 then some ((digitsToNat rest : Int)) else none
      else none
    else
      if (c :: rest).all (fun d => isDigitN d.toNat) then
        if digitsToNat (c :: rest) < 2 ^ 63 then some ((digitsToNat (c :: rest) : Int))
        else none
      else none

theorem char_toNat_ofNat_small (m : Nat) (h : m < 55296) :
    (Char.ofNat m).toNat = m := by
  rw [Char.ofNat, dif_pos (Or.inl (by omega))]
  rfl

theorem goItoaAux_digits (fuel : Nat) : ∀ n : Nat, n < fuel →
    (goItoaAux fuel n).all (fun c => isDigitN c.toNat) = true := by
  induction fuel with
  | zero => intro n hn; omega
  | succ fuel ih =>
    intro n hn
    unfold goItoaAux
    by_cases h : n < 10
    · rw [if_pos h]
      simp [char_toNat_ofNat_small (48 + n) (by omega), isDigitN]
      omega
    · rw [if_neg h]
      rw [List.all_append]
      have hdiv : n / 10 < n := Nat.div_lt_self (by omega) (by omega)
      have h1 := ih (n / 10) (by omega)
      have h2 : isDigitN (Char.ofNat (48 + n % 10)).toNat = true := by
        rw [char_toNat_ofNat_small (48 + n % 10) (by omega)]
        simp [isDigitN]
        omega
      simp [h1, h2]

theorem goItoa_digits (n : Nat) :
    (goItoa n).all (fun c => isDigitN c.toNat) = true :=
  goItoaAux_digits (n + 1) n (by omega)

theorem goItoa_ne_nil (n : Nat) : goItoa n ≠ [] := by
  unfold goItoa goItoaAux
  by_cases h : n < 10
  · rw [if_pos h]; simp
  · rw [if_neg h]; simp

theorem goItoaAux_foldl (fuel : Nat) : ∀ n : Nat, n < fuel → ∀ a : Nat,
    (goItoaAux fuel n).foldl (fun a c => a * 10 + (c.toNat - 48)) a =
      a * 10 ^ (goItoaAux fuel n).length + n := by
  induction fuel with
  | zero => intro n hn; omega
  | succ fuel ih =>
    intro n hn a
    unfold goItoaAux
    by_cases h : n < 10
    · rw [if_pos h]
      simp [char_toNat_ofNat_small (48 + n) (by omega)]
    · rw [if_neg h]
      rw [List.foldl_append]
      have hdiv : n / 10 < n := Nat.div_lt_self (by omega) (by omega)
      rw [ih (n / 10) (by omega) a]
      simp [char_toNat_ofNat_small (48 + n % 10) (by omega), List.length_append]
      ring_nf
      omega

theorem goItoa_foldl (n : Nat) : ∀ a : Nat,
    (goItoa n).foldl (fun a c => a * 10 + (c.toNat - 48)) a =
      a * 10 ^ (goItoa n).length + n := by
  intro a
  unfold goItoa
  exact goItoaAux_foldl (n + 1) n (by omega) a

theorem digitsToNat_goItoa (n : Nat) : digitsToNat (goItoa n) = n := by
  unfold digitsToNat
  rw [goItoa_foldl n 0]
  simp

theorem goItoa_head_digit (n : Nat) (c : Char) (t : GoStr)
    (h : goItoa n = c :: t) : isDigitN c.toNat = true := by
  have := goItoa_digits n
  rw [h] at this
  simp [List.all_cons] at this
  exact this.1

theorem goAtoi_cons (c : Char) (t : GoStr) :
    goAtoi (c :: t) =
      (if c = '-' then
        if t ≠ [] ∧ t.all (fun d => isDigitN d.toNat) then
          if digitsToNat t ≤ 2 ^ 63 then some (-(digitsToNat t : Int)) else none
        else none
      else if c = '+' then
        if t ≠ [] ∧ t.all (fun d => isDigitN d.toNat) then
          if digitsToNat t < 2 ^ 63 then some ((digitsToNat t : Int)) else none
        else none
      else
        if (c :: t).all (fun d => isDigitN d.toNat) then
          if digitsToNat (c :: t) < 2 ^ 63 then some ((digitsToNat (c :: t) : Int))
          else none
        else none) := rfl

theorem goAtoi_goItoa (n : Nat) (h : n < 2 ^ 63) : goAtoi (goItoa n) = some (n : Int) := by
  cases hg : goItoa n with
  | nil => exact absurd hg (goItoa_ne_nil n)
  | cons c t =>
    have hc : isDigitN c.toNat = true := goItoa_head_digit n c t hg
    have hminus : ¬(c = '-') := by
      intro he
      rw [he] at hc
      simp [isDigitN] at hc
    have hplus : ¬(c = '+') := by
      intro he
      rw [he] at hc
      simp [isDigitN] at hc
    have hall : (c :: t).all (fun d => isDigitN d.toNat) = true := by
      rw [← hg]; exact goItoa_digits n
    have hval : digitsToNat (c :: t) = n := by
      rw [← hg]; exact digitsToNat_goItoa n
    rw [goAtoi_cons, if_neg hminus, if_neg hplus, if_pos hall, hval, if_pos h]

/-! ### Splitting helpers (`strings.Cut` / index-based splits of net/url) -/

def breakFirst (c : Char) (s : GoStr) : GoStr × GoStr :=
  (s.takeWhile (fun x => x != c), s.dropWhile (fun x => x != c))

theorem breakFirst_not_mem (c : Char) (s : GoStr) (h : c ∉ s) :
    breakFirst c s = (s, []) := by
  unfold breakFirst
  induction s with
  | nil => rfl
  | cons a t ih =>
    have hac : (a != c) = true := by
      simp only [bne_iff_ne]
      intro he
      exact h (he ▸ List.mem_cons_self a t)
    have ht : c ∉ t := fun hm => h (List.mem_cons_of_mem a hm)
    have := ih ht
    simp only [List.takeWhile_cons, List.dropWhile_cons, hac, if_true] at *
    simp only [Prod.mk.injEq] at this
    simp [this.1, this.2]

theorem breakFirst_append (c : Char) (l1 l2 : GoStr) (h : c ∉ l1) :
    breakFirst c (l1 ++ c :: l2) = (l1, c :: l2) := by
  unfold breakFirst
  induction l1 with
  | nil =>
    simp [List.takeWhile_cons, List.dropWhile_cons]
  | cons a t ih =>
    have hac : (a != c) = true := by
      simp only [bne_iff_ne]
      intro he
      exact h (he ▸ List.mem_cons_self a t)
    have ht : c ∉ t := fun hm => h (List.mem_cons_of_mem a hm)
    have := ih ht
    simp only [Prod.mk.injEq] at this
    simp only [List.cons_append, List.takeWhile_cons, List.dropWhile_cons, hac, if_true]
    simp [this.1, this.2]

def breakLast (c : Char) (s : GoStr) : Option (GoStr × GoStr) :=
  match breakFirst c s.reverse with
  | (_, []) => none
  | (revAfter, _ :: revBefore) => some (revBefore.reverse, revAfter.reverse)

theorem breakLast_not_mem (c : Char) (s : GoStr) (h : c ∉ s) :
    breakLast c s = none := by
  unfold breakLast
  rw [breakFirst_not_mem c s.reverse (by simpa using h)]

theorem breakLast_append (c : Char) (l1 l2 : GoStr) (h1 : c ∉ l1) (h2 : c ∉ l2) :
    breakLast c (l1 ++ c :: l2) = some (l1, l2) := by
  unfold breakLast
  have hrev : (l1 ++ c :: l2).reverse = l2.reverse ++ c :: l1.reverse := by
    simp
  rw [hrev, breakFirst_append c l2.reverse l1.reverse (by simpa using h2)]
  simp

/-- Split on a separator character (the `strings.Cut` loop of
`url.ParseQuery`): `n` separators yield `n+1` segments. -/
def splitOnChar (c : Char) : GoStr → List GoStr
  | [] => [[]]
  | a :: rest =>
    if a = c then [] :: splitOnChar c rest
    else
      match splitOnChar c rest with
      | [] => [[a]]
      | seg :: segs => (a :: seg) :: segs

theorem splitOnChar_not_mem (c : Char) (s : GoStr) (h : c ∉ s) :
    splitOnChar c s = [s] := by
  induction s with
  | nil => rfl
  | cons a t ih =>
    have hac : ¬(a = c) := fun he => h (he ▸ List.mem_cons_self a t)
    have ht := ih (fun hm => h (List.mem_cons_of_mem a hm))
    conv_lhs => unfold splitOnChar
    rw [if_neg hac, ht]

theorem splitOnChar_append (c : Char) (l1 l2 : GoStr) (h : c ∉ l1) :
    splitOnChar c (l1 ++ c :: l2) = l1 :: splitOnChar c l2 := by
  induction l1 with
  | nil =>
    show splitOnChar c (c :: l2) = [] :: splitOnChar c l2
    conv_lhs => unfold splitOnChar
    rw [if_pos rfl]
  | cons a t ih =>
    have hac : ¬(a = c) := fun he => h (he ▸ List.mem_cons_self a t)
    have ht := ih (fun hm => h (List.mem_cons_of_mem a hm))
    show splitOnChar c (a :: (t ++ c :: l2)) = (a :: t) :: splitOnChar c l2
    conv_lhs => unfold splitOnChar
    rw [if_neg hac, ht]

/-- `url.Values.Encode` joining (one `&` between adjacent pairs). -/
def joinSep (c : Char) : List GoStr → GoStr
  | [] => []
  | [x] => x
  | x :: y :: xs => x ++ c :: joinSep c (y :: xs)

theorem splitOnChar_joinSep (c : Char) (segs : List GoStr) (hne : segs ≠ [])
    (h : ∀ seg ∈ segs, c ∉ seg) : splitOnChar c (joinSep c segs) = segs := by
  induction segs with
  | nil => exact absurd rfl hne
  | cons x xs ih =>
    cases xs with
    | nil =>
      unfold joinSep
      exact splitOnChar_not_mem c x (h x (List.mem_cons_self x []))
    | cons y ys =>
      unfold joinSep
      rw [splitOnChar_append c x (joinSep c (y :: ys)) (h x (List.mem_cons_self x _))]
      rw [ih (by simp) (fun seg hs => h seg (List.mem_cons_of_mem x hs))]

/-! ### `url.Values` (Set / Encode / ParseQuery / Get) -/

/-- Byte-wise `<` on strings (`sort.Strings` ordering). -/
def goStrLt : GoStr → GoStr → Bool
  | [], [] => false
  | [], _ :: _ => true
  | _ :: _, [] => false
  | a :: as, b :: bs =>
    if a.toNat < b.toNat then true
    else if b.toNat < a.toNat then false
    else goStrLt as bs

/-- `Values.Set`: replace the values of an existing key, else add. -/
def valuesSet (q : List (GoStr × GoStr)) (k v : GoStr) : List (GoStr × GoStr) :=
  if q.any (fun kv => kv.1 == k) then
    q.map (fun kv => if kv.1 == k then (k, v) else kv)
  else q ++ [(k, v)]

def insertPairSorted (kv : GoStr × GoStr) :
    List (GoStr × GoStr) → List (GoStr × GoStr)
  | [] => [kv]
  | x :: xs =>
    if goStrLt x.1 kv.1 then x :: insertPairSorted kv xs else kv :: x :: xs

/-- The key sort performed by `Values.Encode` (`sort.Strings`). -/
def sortPairs : List (GoStr × GoStr) → List (GoStr × GoStr)
  | [] => []
  | x :: xs => insertPairSorted x (sortPairs xs)

/-- `Values.Encode`: keys in sorted order, each pair query-escaped and
written `k=v`, pairs joined by `&`. -/
def encodeValues (q : List (GoStr × GoStr)) : GoStr :=
  joinSep '&' ((sortPairs q).map (fun kv =>
    escape kv.1 EncMode.queryComponent ++ '=' :: escape kv.2 EncMode.queryComponent))

/-- One segment of `url.ParseQuery`: reject a segment holding `;`, skip
an empty segment, cut at the first `=`, unescape both halves (skipping
the pair on failure). -/
def parseQueryStep (seg : GoStr) (acc : List (GoStr × GoStr)) :
    List (GoStr × GoStr) :=
  if seg.contains ';' then acc
  else if seg = [] then acc
  else
    match unescape (breakFirst '=' seg).1 EncMode.queryComponent,
      unescape (match (breakFirst '=' seg).2 with | [] => [] | _ :: v => v)
        EncMode.queryComponent with
    | some k, some v => (k, v) :: acc
    | _, _ => acc

/-- `url.ParseQuery`: split on `&` and process each segment. -/
def parseQuery (q : GoStr) : List (GoStr × GoStr) :=
  (splitOnChar '&' q).foldr parseQueryStep []

/-- `Values.Get`: first value for the key, or the empty string. -/
def qGet (ps : List (GoStr × GoStr)) (k : GoStr) : GoStr :=
  match ps.find? (fun kv => kv.1 == k) with
  | some kv => kv.2
  | none => []

theorem insertPairSorted_perm (kv : GoStr × GoStr) (l : List (GoStr × GoStr)) :
    List.Perm (insertPairSorted kv l) (kv :: l) := by
  induction l with
  | nil => exact List.Perm.refl _
  | cons x xs ih =>
    unfold insertPairSorted
    by_cases h : goStrLt x.1 kv.1
    · rw [if_pos h]
      exact ((ih.cons x).trans (List.Perm.swap kv x xs)).symm.symm
    · rw [if_neg h]

theorem sortPairs_perm (l : List (GoStr × GoStr)) :
    List.Perm (sortPairs l) l := by
  induction l with
  | nil => exact List.Perm.refl _
  | cons x xs ih =>
    unfold sortPairs
    exact (insertPairSorted_perm x (sortPairs xs)).trans (ih.cons x)

theorem qGet_eq_of_mem (ps : List (GoStr × GoStr)) (k v : GoStr)
    (hmem : (k, v) ∈ ps) (hnd : (ps.map Prod.fst).Nodup) : qGet ps k = v := by
  induction ps with
  | nil => cases hmem
  | cons x xs ih =>
    rcases List.mem_cons.1 hmem with rfl | hmem'
    · unfold qGet
      rw [List.find?_cons_of_pos _ (by simp)]
    · have hk : k ∈ xs.map Prod.fst :=
        List.mem_map.2 ⟨(k, v), hmem', rfl⟩
      have hx1 : ¬(x.1 = k) := by
        intro he
        rw [List.map_cons, List.nodup_cons] at hnd
        exact hnd.1 (he ▸ hk)
      unfold qGet
      rw [List.find?_cons_of_neg _ (by simp [hx1])]
      have := ih hmem' (by rw [List.map_cons, List.nodup_cons] at hnd; exact hnd.2)
      unfold qGet at this
      exact this

theorem qGet_eq_nil_of_not_mem (ps : List (GoStr × GoStr)) (k : GoStr)
    (h : k ∉ ps.map Prod.fst) : qGet ps k = [] := by
  induction ps with
  | nil => rfl
  | cons x xs ih =>
    have hx1 : ¬(x.1 = k) := by
      intro he
      exact h (by rw [List.map_cons]; exact he ▸ List.mem_cons_self _ _)
    unfold qGet
    rw [List.find?_cons_of_neg _ (by simp [hx1])]
    have := ih (fun hm => h (by rw [List.map_cons]; exact List.mem_cons_of_mem _ hm))
    unfold qGet at this
    exact this

/-! ### Connection string builder (connection_producer.go:145-313) -/

structure ConnStringBuilder where
  host : GoStr
  port : Int
  database : GoStr
  username : GoStr
  password : GoStr
  tls : Bool
  tlsSkipVerify : Bool
  debug : Bool
  extraParams : List (GoStr × GoStr)
deriving Repr, DecidableEq

def newConnStringBuilder : ConnStringBuilder :=
  { host := [], port := 0, database := [], username := [], password := [],
    tls := false, tlsSkipVerify := false, debug := false, extraParams := [] }

/-- `Check` (connection_producer.go:271-279). -/
def builderCheck (b : ConnStringBuilder) : Option GoErr :=
  if b.host = [] then some (GoErr.configError "host is required".data)
  else if b.port = 0 then some (GoErr.configError "port is required".data)
  else none

/-- The `url.Values` assembled by `BuildConnectionString`
(connection_producer.go:283-303): username/password when non-empty,
`secure` (and nested `skip_verify`) under TLS, `debug`, then the extra
parameters. -/
def builderParams (b : ConnStringBuilder) : List (GoStr × GoStr) :=
  let q : List (GoStr × GoStr) := []
  let q := if b.username ≠ [] then valuesSet q "username".data b.username else q
  let q := if b.password ≠ [] then valuesSet q "password".data b.password else q
  let q := if b.tls then
      (let q := valuesSet q "secure".data "true".data
       if b.tlsSkipVerify then valuesSet q "skip_verify".data "true".data else q)
    else q
  let q := if b.debug then valuesSet q "debug".data "true".data else q
  b.extraParams.foldl (fun q kv => valuesSet q kv.1 kv.2) q

/-- `url.URL.String` for the URL shape built here: scheme `clickhouse`,
non-empty `Host`, no user, no fragment: `clickhouse://` + escaped host +
(`/` glued in front of a relative path) + escaped path + `?rawQuery`. -/
def urlString (host path rawQuery : GoStr) : GoStr :=
  "clickhouse://".data ++ escape host EncMode.host ++
    (if path ≠ [] ∧ path.head? ≠ some '/' then ['/'] else []) ++
    escape path EncMode.path ++
    (if rawQuery ≠ [] then '?' :: rawQuery else [])

/-- `BuildConnectionString` (connection_producer.go:282-313). -/
def buildConnectionString (b : ConnStringBuilder) : GoStr :=
  urlString (b.host ++ ':' :: goIntRepr b.port) b.database
    (encodeValues (builderParams b))

/-! ### url.Parse (restricted to the shapes this plugin produces and
consumes: hierarchical `scheme://[userinfo@]host[:port][/path][?query]`;
IPv6 bracket hosts and opaque URLs are rejected / out of scope). -/

def toLowerStr (s : GoStr) : GoStr := s.map Char.toLower

def isSchemeTailChar (c : Char) : Bool :=
  isAsciiLetterN c.toNat || isDigitN c.toNat || c == '+' || c == '-' || c == '.'

/-- `getScheme`: longest `[a-zA-Z][a-zA-Z0-9+-.]*` before a `:`; a `:` at
position 0 is an error; otherwise no scheme. -/
def getSchemeGo (s : GoStr) (seen : GoStr) : GoStr → Option (GoStr × GoStr)
  | [] => some ([], s)
  | c :: cs =>
    if isAsciiLetterN c.toNat then getSchemeGo s (seen ++ [c]) cs
    else if isDigitN c.toNat || c == '+' || c == '-' || c == '.' then
      if seen = [] then some ([], s) else getSchemeGo s (seen ++ [c]) cs
    else if c = ':' then
      if seen = [] then none else some (toLowerStr seen, cs)
    else some ([], s)

def getScheme (s : GoStr) : Option (GoStr × GoStr) := getSchemeGo s [] s

/-- `validOptionalPort` applied after the last `:`: digits only. -/
def allDigits (l : GoStr) : Bool := l.all (fun c => isDigitN c.toNat)

/-- `parseHost` (no IPv6 literals): if a last `:` exists its suffix must
be a valid port, then the host is unescaped in host mode. -/
def parseHost (raw : GoStr) : Option GoStr :=
  if raw.head? = some '[' then none
  else
    match breakLast ':' raw with
    | some (_, portPart) =>
      if allDigits portPart then unescape raw EncMode.host else none
    | none => unescape raw EncMode.host

/-- `parseAuthority`: split userinfo at the last `@`; userinfo is cut at
the first `:` into username / password. -/
def parseAuthority (authority : GoStr) :
    Option (Option GoStr × Option GoStr × GoStr) :=
  match breakLast '@' authority with
  | none =>
    match parseHost authority with
    | some h => some (none, none, h)
    | none => none
  | some (userinfo, hostPart) =>
    match parseHost hostPart with
    | none => none
    | some h =>
      match breakFirst ':' userinfo with
      | (u, []) =>
        match unescape u EncMode.userPassword with
        | some uu => some (some uu, none, h)
        | none => none
      | (u, _ :: p) =>
        match unescape u EncMode.userPassword, unescape p EncMode.userPassword with
        | some uu, some pp => some (some uu, some pp, h)
        | _, _ => none

structure GoURL where
  scheme : GoStr
  userinfoUser : Option GoStr
  userinfoPass : Option GoStr
  hostRaw : GoStr
  path : GoStr
  rawQuery : GoStr
deriving Repr, DecidableEq

/-- `url.Parse`: strip the fragment, read the scheme, split off the raw
query at the first `?`, then authority (up to the first `/`) and path. -/
def parseURL (s : GoStr) : Option GoURL :=
  match getScheme (breakFirst '#' s).1 with
  | none => none
  | some (scheme, rest0) =>
    let rest1 := (breakFirst '?' rest0).1
    let rawQuery := match (breakFirst '?' rest0).2 with | [] => [] | _ :: q => q
    if rest1.take 2 = ['/', '/'] then
      match parseAuthority ((breakFirst '/' (rest1.drop 2)).1) with
      | none => none
      | some (uu, up, hostRaw) =>
        match unescape (breakFirst '/' (rest1.drop 2)).2 EncMode.path with
        | none => none
        | some p =>
          some { scheme := scheme, userinfoUser := uu, userinfoPass := up,
                 hostRaw := hostRaw, path := p, rawQuery := rawQuery }
    else
      match unescape rest1 EncMode.path with
      | none => none
      | some p =>
        some { scheme := scheme, userinfoUser := none, userinfoPass := none,
               hostRaw := [], path := p, rawQuery := rawQuery }

/-- `Hostname()` / `Port()`: strip a valid `:port` suffix. -/
def splitHostPort (hp : GoStr) : GoStr × GoStr :=
  match breakLast ':' hp with
  | some (h, p) => if allDigits p then (h, p) else (hp, [])
  | none => (hp, [])

/-- `strings.TrimPrefix(path, "/")`. -/
def dropLeadingSlash (p : GoStr) : GoStr :=
  match p with
  | '/' :: rest => rest
  | other => other

/-- `NewConnStringBuilderFromConnString`
(connection_producer.go:168-219). -/
def NewConnStringBuilderFromConnString (connString : GoStr) :
    Option ConnStringBuilder :=
  match parseURL connString with
  | none => none
  | some u =>
    let hn := (splitHostPort u.hostRaw).1
    let portStr := (splitHostPort u.hostRaw).2
    match (if portStr ≠ [] then goAtoi portStr else some 0) with
    | none => none
    | some port =>
      let database := dropLeadingSlash u.path
      let username0 := match u.userinfoUser with | some uu => uu | none => []
      let password0 := match u.userinfoPass with | some pp => pp | none => []
      let q := parseQuery u.rawQuery
      let username := if username0 = [] then qGet q "username".data else username0
      let password := if password0 = [] then qGet q "password".data else password0
      some { host := hn, port := port, database := database,
             username := username, password := password,
             tls := qGet q "secure".data = "true".data,
             tlsSkipVerify := qGet q "skip_verify".data = "true".data,
             debug := qGet q "debug".data = "true".data,
             extraParams := [] }

/-! ### `Init` (connection_producer.go:41-96)

`mapstructure.WeakDecode` is outside the claims: `producerInit` takes
the already-decoded configuration record (absent keys decode to zero
values).  The `verifyConnection` probe runs through the same `ConnEnv`
oracle as `Connection`. -/

def initVerify (st : ProducerState) (verify : Bool) (env : ConnEnv) :
    Option GoErr × ProducerState :=
  if verify then
    match producerConnection st env with
    | (.error e, st2) =>
      (some (GoErr.wrapped "failed to verify connection".data e), st2)
    | (.ok h, st2) =>
      if env.pingOk h.id then (none, st2)
      else (some (GoErr.wrapped "failed to ping database".data
        (GoErr.pingFailed (env.pingErr h.id))), st2)
  else (none, st)

def producerInit (st0 : ProducerState) (verify : Bool) (env : ConnEnv) :
    Option GoErr × ProducerState :=
  let st1 := { st0 with maxOpenConnections :=
    if st0.maxOpenConnections = 0 then 4 else st0.maxOpenConnections }
  let st2 := { st1 with maxIdleConnections :=
    if st1.maxIdleConnections = 0 then st1.maxOpenConnections
    else st1.maxIdleConnections }
  if st2.connectionURL = [] then
    match builderCheck { newConnStringBuilder with
        host := st2.host, port := st2.port, database := st2.database,
        username := st2.username, password := st2.password, tls := st2.tls,
        tlsSkipVerify := st2.tlsSkipVerify, debug := st2.debug } with
    | some e => (some (GoErr.wrapped "invalid connection configuration".data e), st2)
    | none =>
      initVerify { st2 with
        connectionURL := buildConnectionString { newConnStringBuilder with
          host := st2.host, port := st2.port, database := st2.database,
          username := st2.username, password := st2.password, tls := st2.tls,
          tlsSkipVerify := st2.tlsSkipVerify, debug := st2.debug },
        initialized := true } verify env
  else
    initVerify { st2 with
      connectionURL :=
        replaceAll
          (replaceAll st2.connectionURL (placeholder "username".data)
            (escape st2.username EncMode.pathSegment))
          (placeholder "password".data)
          (escape st2.password EncMode.pathSegment),
      initialized := true } verify env

/-- C7: `Init` with no explicit `connection_url` fails with a
ConfigError (wrapped as "invalid connection configuration") whenever the
host or the port is absent (decoded zero value), and does not mark the
producer initialized; in particular it always fails when both are
absent. -/
theorem c7_init_requires_host_port (st0 : ProducerState) (verify : Bool)
    (env : ConnEnv) (hurl : st0.connectionURL = [])
    (hmiss : st0.host = [] ∨ st0.port = 0) :
    (producerInit st0 verify env).1 =
      some (GoErr.wrapped "invalid connection configuration".data
        (GoErr.configError
          (if st0.host = [] then "host is required".data
           else "port is required".data))) ∧
    (producerInit st0 verify env).2.initialized = st0.initialized := by
  by_cases hh : st0.host = []
  · simp [producerInit, builderCheck, hurl, hh]
  · have hp : st0.port = 0 := by
      rcases hmiss with h | h
      · exact absurd h hh
      · exact h
    simp [producerInit, builderCheck, hurl, hh, hp]

/-- Witness for C7: the all-defaults configuration (no URL, no host, no
port) fails. -/
theorem c7_init_requires_host_port_witness :
    (producerInit baseProducerState false c8Env).1 =
      some (GoErr.wrapped "invalid connection configuration".data
        (GoErr.configError
          (if baseProducerState.host = [] then "host is required".data
           else "port is required".data))) ∧
    (producerInit baseProducerState false c8Env).2.initialized =
      baseProducerState.initialized :=
  c7_init_requires_host_port baseProducerState false c8Env rfl (Or.inl rfl)

/-! ### Safe characters: escaping and unescaping act as the identity -/

/-- Unreserved URL characters (RFC 3986 §2.3): never escaped in any
mode and parsed back verbatim. -/
def urlSafeChar (c : Char) : Bool :=
  isAsciiLetterN c.toNat || isDigitN c.toNat ||
    ([45, 46, 95, 126] : List Nat).contains c.toNat

theorem urlSafe_ranges (c : Char) (h : urlSafeChar c = true) :
    (48 ≤ c.toNat ∧ c.toNat ≤ 57) ∨ (65 ≤ c.toNat ∧ c.toNat ≤ 90) ∨
    (97 ≤ c.toNat ∧ c.toNat ≤ 122) ∨ c.toNat = 45 ∨ c.toNat = 46 ∨
    c.toNat = 95 ∨ c.toNat = 126 := by
  unfold urlSafeChar isAsciiLetterN isDigitN at h
  simp only [List.contains, Bool.or_eq_true, Bool.and_eq_true, decide_eq_true_eq,
    List.elem_eq_mem, List.mem_cons, List.not_mem_nil, or_false] at h
  omega

theorem notin_safe (s : GoStr) (hs : s.all urlSafeChar = true) (c0 : Char)
    (hc0 : urlSafeChar c0 = false) : c0 ∉ s := by
  intro hm
  have := List.all_eq_true.1 hs c0 hm
  rw [hc0] at this
  cases this

theorem safe_not_shouldEscape (c : Char) (m : EncMode) (h : urlSafeChar c = true) :
    shouldEscapeByte c.toNat m = false := by
  rcases urlSafe_ranges c h with h' | h' | h' | h' | h' | h' | h'
  · unfold shouldEscapeByte
    rw [if_pos (by unfold isAsciiLetterN isDigitN; simp; omega)]
  · unfold shouldEscapeByte
    rw [if_pos (by unfold isAsciiLetterN isDigitN; simp; omega)]
  · unfold shouldEscapeByte
    rw [if_pos (by unfold isAsciiLetterN isDigitN; simp; omega)]
  · rw [h']; cases m <;> decide
  · rw [h']; cases m <;> decide
  · rw [h']; cases m <;> decide
  · rw [h']; cases m <;> decide

theorem escape_append (a b : GoStr) (m : EncMode) :
    escape (a ++ b) m = escape a m ++ escape b m := by
  unfold escape
  rw [List.flatMap_append]

theorem escape_safe (s : GoStr) (m : EncMode) (hs : s.all urlSafeChar = true) :
    escape s m = s := by
  induction s with
  | nil => rfl
  | cons c t ih =>
    rw [List.all_cons, Bool.and_eq_true] at hs
    have hr := urlSafe_ranges c hs.1
    have hutf : utf8Bytes c.toNat = [c.toNat] := by
      unfold utf8Bytes
      rw [if_pos (by omega)]
    have h32 : (c.toNat == 32) = false := by
      simp only [beq_eq_false_iff_ne, ne_eq]
      omega
    have hesc : shouldEscapeByte c.toNat m = false := safe_not_shouldEscape c m hs.1
    have h32' : ¬(c.toNat = 32) := by simpa using h32
    unfold escape at ih ⊢
    rw [List.flatMap_cons, hutf, ih hs.2]
    simp [h32', hesc]

theorem unescape_id (s : GoStr) (m : EncMode)
    (h : ∀ c ∈ s, ¬(c = '%') ∧ ¬(c = '+') ∧
      ¬(m = EncMode.host ∧ c.toNat < 0x80 ∧ shouldEscapeByte c.toNat m = true)) :
    unescape s m = some s := by
  induction s with
  | nil => rfl
  | cons c t ih =>
    obtain ⟨h1, h2, h3⟩ := h c (List.mem_cons_self c t)
    unfold unescape
    rw [if_neg h1, if_neg h2, if_neg h3,
      ih (fun d hd => h d (List.mem_cons_of_mem c hd))]

theorem unescape_safe (s : GoStr) (m : EncMode) (hs : s.all urlSafeChar = true) :
    unescape s m = some s := by
  refine unescape_id s m ?_
  intro c hc
  have hcs := List.all_eq_true.1 hs c hc
  have hr := urlSafe_ranges c hcs
  refine ⟨?_, ?_, ?_⟩
  · intro he
    rw [he] at hr
    simp at hr
  · intro he
    rw [he] at hr
    simp at hr
  · rintro ⟨-, -, hesc⟩
    rw [safe_not_shouldEscape c m hcs] at hesc
    cases hesc

theorem digits_all_safe (l : GoStr) (h : allDigits l = true) :
    l.all urlSafeChar = true := by
  unfold allDigits at h
  rw [List.all_eq_true] at h ⊢
  intro c hc
  have hd := h c hc
  simp only [decide_eq_true_eq] at hd
  unfold urlSafeChar
  simp [hd]

/-! ### Round-tripping a query string built by `Values.Encode` -/

theorem notin_seg (k v : GoStr) (hk : k.all urlSafeChar = true)
    (hv : v.all urlSafeChar = true) (c0 : Char) (h0 : urlSafeChar c0 = false)
    (hne : ¬(c0 = '=')) : c0 ∉ k ++ '=' :: v := by
  intro hm
  rcases List.mem_append.1 hm with h | h
  · exact notin_safe k hk c0 h0 h
  · rcases List.mem_cons.1 h with he | h
    · exact hne he
    · exact notin_safe v hv c0 h0 h

theorem parseQueryStep_pair (k v : GoStr) (acc : List (GoStr × GoStr))
    (hk : k.all urlSafeChar = true) (hv : v.all urlSafeChar = true) :
    parseQueryStep (k ++ '=' :: v) acc = (k, v) :: acc := by
  unfold parseQueryStep
  have hsem : ¬((k ++ '=' :: v).contains ';' = true) := by
    simp only [List.contains, List.elem_eq_mem, decide_eq_true_eq]
    exact notin_seg k v hk hv ';' (by decide) (by decide)
  rw [if_neg hsem, if_neg (by simp)]
  rw [breakFirst_append '=' k v (notin_safe k hk '=' (by decide))]
  rw [unescape_safe k EncMode.queryComponent hk]
  show (match some k, unescape v EncMode.queryComponent with
    | some k, some v => (k, v) :: acc
    | _, _ => acc) = (k, v) :: acc
  rw [unescape_safe v EncMode.queryComponent hv]

theorem parseQuery_joinSep (ps : List (GoStr × GoStr))
    (h : ∀ kv ∈ ps, kv.1.all urlSafeChar = true ∧ kv.2.all urlSafeChar = true) :
    parseQuery (joinSep '&' (ps.map (fun kv => kv.1 ++ '=' :: kv.2))) = ps := by
  induction ps with
  | nil => rfl
  | cons kv ps' ih =>
    obtain ⟨hk, hv⟩ := h kv (List.mem_cons_self kv ps')
    cases ps' with
    | nil =>
      unfold parseQuery
      rw [show joinSep '&' ((([kv] : List (GoStr × GoStr)).map
          (fun kv => kv.1 ++ '=' :: kv.2))) = kv.1 ++ '=' :: kv.2 from rfl]
      rw [splitOnChar_not_mem '&' _ (notin_seg kv.1 kv.2 hk hv '&' (by decide) (by decide))]
      show parseQueryStep (kv.1 ++ '=' :: kv.2) [] = [kv]
      rw [parseQueryStep_pair kv.1 kv.2 [] hk hv]
    | cons kv2 ps'' =>
      unfold parseQuery at ih ⊢
      rw [show joinSep '&' (((kv :: kv2 :: ps'') : List (GoStr × GoStr)).map
          (fun kv => kv.1 ++ '=' :: kv.2)) =
        (kv.1 ++ '=' :: kv.2) ++ '&' ::
          joinSep '&' ((kv2 :: ps'').map (fun kv => kv.1 ++ '=' :: kv.2)) from rfl]
      rw [splitOnChar_append '&' _ _ (notin_seg kv.1 kv.2 hk hv '&' (by decide) (by decide))]
      rw [List.foldr_cons]
      rw [ih (fun kv' hm => h kv' (List.mem_cons_of_mem kv hm))]
      rw [parseQueryStep_pair kv.1 kv.2 (kv2 :: ps'') hk hv]

theorem encodeValues_eq_joinSep (ps : List (GoStr × GoStr))
    (h : ∀ kv ∈ ps, kv.1.all urlSafeChar = true ∧ kv.2.all urlSafeChar = true) :
    encodeValues ps =
      joinSep '&' ((sortPairs ps).map (fun kv => kv.1 ++ '=' :: kv.2)) := by
  unfold encodeValues
  congr 1
  apply List.map_congr_left
  intro kv hm
  obtain ⟨hk, hv⟩ := h kv ((sortPairs_perm ps).mem_iff.1 hm)
  rw [escape_safe kv.1 EncMode.queryComponent hk,
    escape_safe kv.2 EncMode.queryComponent hv]

theorem parseQuery_encodeValues (ps : List (GoStr × GoStr))
    (h : ∀ kv ∈ ps, kv.1.all urlSafeChar = true ∧ kv.2.all urlSafeChar = true) :
    parseQuery (encodeValues ps) = sortPairs ps := by
  rw [encodeValues_eq_joinSep ps h]
  exact parseQuery_joinSep (sortPairs ps)
    (fun kv hm => h kv ((sortPairs_perm ps).mem_iff.1 hm))

theorem mem_joinSep (sep : Char) (segs : List GoStr) (c : Char)
    (hc : c ∈ joinSep sep segs) : c = sep ∨ ∃ seg ∈ segs, c ∈ seg := by
  induction segs with
  | nil => cases hc
  | cons x xs ih =>
    cases xs with
    | nil =>
      right
      exact ⟨x, List.mem_cons_self x [], hc⟩
    | cons y ys =>
      rw [show joinSep sep (x :: y :: ys) = x ++ sep :: joinSep sep (y :: ys) from rfl] at hc
      rcases List.mem_append.1 hc with h | h
      · exact Or.inr ⟨x, List.mem_cons_self x _, h⟩
      · rcases List.mem_cons.1 h with he | h
        · exact Or.inl he
        · rcases ih h with he | ⟨seg, hs, hcs⟩
          · exact Or.inl he
          · exact Or.inr ⟨seg, List.mem_cons_of_mem x hs, hcs⟩

/-- No character of an all-safe-pairs encoded query is `c0`, for `c0`
outside the safe set and distinct from `&`/`=`. -/
theorem notin_encodeValues (ps : List (GoStr × GoStr))
    (h : ∀ kv ∈ ps, kv.1.all urlSafeChar = true ∧ kv.2.all urlSafeChar = true)
    (c0 : Char) (h0 : urlSafeChar c0 = false) (hamp : ¬(c0 = '&'))
    (heq : ¬(c0 = '=')) : c0 ∉ encodeValues ps := by
  rw [encodeValues_eq_joinSep ps h]
  intro hm
  rcases mem_joinSep '&' _ c0 hm with he | ⟨seg, hs, hcs⟩
  · exact hamp he
  · obtain ⟨kv, hkv, rfl⟩ := List.mem_map.1 hs
    obtain ⟨hk, hv⟩ := h kv ((sortPairs_perm ps).mem_iff.1 hkv)
    exact notin_seg kv.1 kv.2 hk hv c0 h0 heq hcs

def c3CexBuilder : ConnStringBuilder :=
  { host := "h".data, port := 9000, database := "db".data, username := [],
    password := [], tls := false, tlsSkipVerify := true, debug := false,
    extraParams := [] }

/-- Counterexample to C3 as stated: with `tls = false` but
`tls_skip_verify = true`, `BuildConnectionString` writes no
`skip_verify` query parameter at all, so the build-then-parse round trip
returns the builder with `tls_skip_verify = false`, losing the flag. -/
theorem c3_counterexample :
    NewConnStringBuilderFromConnString (buildConnectionString c3CexBuilder) =
      some { c3CexBuilder with tlsSkipVerify := false } ∧
    c3CexBuilder.tlsSkipVerify = true ∧
    ¬(NewConnStringBuilderFromConnString (buildConnectionString c3CexBuilder) =
        some c3CexBuilder) := by
  refine ⟨by decide, rfl, by decide⟩

/-! ### Parsing a URL of the exact shape `BuildConnectionString` emits -/

theorem notin_append (c : Char) {a b : GoStr} (ha : c ∉ a) (hb : c ∉ b) :
    c ∉ a ++ b := by
  intro hm
  rcases List.mem_append.1 hm with h | h
  · exact ha h
  · exact hb h

theorem notin_cons {c d : Char} {b : GoStr} (hcd : ¬(c = d)) (hb : c ∉ b) :
    c ∉ d :: b := by
  intro hm
  rcases List.mem_cons.1 hm with he | h
  · exact hcd he
  · exact hb h

theorem getScheme_ck (r : GoStr) :
    getScheme ("clickhouse".data ++ ':' :: r) = some ("clickhouse".data, r) := rfl

theorem unescape_hostport (H Dg : GoStr) (hH : H.all urlSafeChar = true)
    (hDg : allDigits Dg = true) :
    unescape (H ++ ':' :: Dg) EncMode.host = some (H ++ ':' :: Dg) := by
  refine unescape_id _ _ ?_
  intro c hc
  rcases List.mem_append.1 hc with h | h
  · have hcs := List.all_eq_true.1 hH c h
    have hr := urlSafe_ranges c hcs
    refine ⟨?_, ?_, ?_⟩
    · intro he; rw [he] at hr; simp at hr
    · intro he; rw [he] at hr; simp at hr
    · rintro ⟨-, -, hesc⟩
      rw [safe_not_shouldEscape c EncMode.host hcs] at hesc
      cases hesc
  · rcases List.mem_cons.1 h with he | h
    · subst he
      refine ⟨by decide, by decide, ?_⟩
      rintro ⟨-, -, hesc⟩
      have : shouldEscapeByte (':').toNat EncMode.host = false := by decide
      rw [this] at hesc
      cases hesc
    · have hcs := List.all_eq_true.1 (digits_all_safe Dg hDg) c h
      have hr := urlSafe_ranges c hcs
      refine ⟨?_, ?_, ?_⟩
      · intro he; rw [he] at hr; simp at hr
      · intro he; rw [he] at hr; simp at hr
      · rintro ⟨-, -, hesc⟩
        rw [safe_not_shouldEscape c EncMode.host hcs] at hesc
        cases hesc

theorem head_ne_lbracket (H Dg : GoStr) (hH : H.all urlSafeChar = true) :
    ¬((H ++ ':' :: Dg).head? = some '[') := by
  cases H with
  | nil => intro he; simp at he
  | cons c t =>
    intro he
    simp at he
    have hcs := List.all_eq_true.1 hH c (List.mem_cons_self c t)
    rw [he] at hcs
    have : urlSafeChar '[' = false := by decide
    rw [this] at hcs
    cases hcs

theorem colon_notin_safe (H : GoStr) (hH : H.all urlSafeChar = true) :
    (':') ∉ H := notin_safe H hH ':' (by decide)

theorem parseHost_hostport (H Dg : GoStr) (hH : H.all urlSafeChar = true)
    (hDg : allDigits Dg = true) :
    parseHost (H ++ ':' :: Dg) = some (H ++ ':' :: Dg) := by
  unfold parseHost
  rw [if_neg (head_ne_lbracket H Dg hH)]
  rw [breakLast_append ':' H Dg (colon_notin_safe H hH)
    (notin_safe Dg (digits_all_safe Dg hDg) ':' (by decide))]
  show (if allDigits Dg = true then unescape (H ++ ':' :: Dg) EncMode.host
    else none) = some (H ++ ':' :: Dg)
  rw [if_pos hDg, unescape_hostport H Dg hH hDg]

theorem parseAuthority_hostport (H Dg : GoStr) (hH : H.all urlSafeChar = true)
    (hDg : allDigits Dg = true) :
    parseAuthority (H ++ ':' :: Dg) = some (none, none, H ++ ':' :: Dg) := by
  unfold parseAuthority
  rw [breakLast_not_mem '@' _ (notin_append '@' (notin_safe H hH '@' (by decide))
    (notin_cons (by decide) (notin_safe Dg (digits_all_safe Dg hDg) '@' (by decide))))]
  rw [parseHost_hostport H Dg hH hDg]

theorem splitHostPort_hostport (H Dg : GoStr) (hH : H.all urlSafeChar = true)
    (hDg : allDigits Dg = true) :
    splitHostPort (H ++ ':' :: Dg) = (H, Dg) := by
  unfold splitHostPort
  rw [breakLast_append ':' H Dg (colon_notin_safe H hH)
    (notin_safe Dg (digits_all_safe Dg hDg) ':' (by decide))]
  show (if allDigits Dg = true then (H, Dg) else (H ++ ':' :: Dg, [])) = (H, Dg)
  rw [if_pos hDg]

theorem unescape_slash_path (P : GoStr) (hP : P.all urlSafeChar = true) :
    unescape ('/' :: P) EncMode.path = some ('/' :: P) := by
  refine unescape_id _ _ ?_
  intro c hc
  rcases List.mem_cons.1 hc with he | h
  · subst he
    refine ⟨by decide, by decide, ?_⟩
    rintro ⟨he, -⟩
    simp at he
  · have hcs := List.all_eq_true.1 hP c h
    have hr := urlSafe_ranges c hcs
    refine ⟨?_, ?_, ?_⟩
    · intro he; rw [he] at hr; simp at hr
    · intro he; rw [he] at hr; simp at hr
    · rintro ⟨he, -⟩
      simp at he

/-- One-step unfolding of `parseURL` once the scheme is resolved. -/
theorem parseURL_step (s : GoStr) (scheme rest0 : GoStr)
    (h : getScheme (breakFirst '#' s).1 = some (scheme, rest0)) :
    parseURL s =
      (if (breakFirst '?' rest0).1.take 2 = ['/', '/'] then
        match parseAuthority ((breakFirst '/' ((breakFirst '?' rest0).1.drop 2)).1) with
        | none => none
        | some (uu, up, hostRaw) =>
          match unescape (breakFirst '/' ((breakFirst '?' rest0).1.drop 2)).2
            EncMode.path with
          | none => none
          | some p =>
            some { scheme := scheme, userinfoUser := uu, userinfoPass := up,
                   hostRaw := hostRaw, path := p,
                   rawQuery :=
                     match (breakFirst '?' rest0).2 with | [] => [] | _ :: q => q }
      else
        match unescape (breakFirst '?' rest0).1 EncMode.path with
        | none => none
        | some p =>
          some { scheme := scheme, userinfoUser := none, userinfoPass := none,
                 hostRaw := [], path := p,
                 rawQuery :=
                   match (breakFirst '?' rest0).2 with | [] => [] | _ :: q => q }) := by
  unfold parseURL
  rw [h]


/-- Second unfolding step: hierarchical (`//`) URLs. -/
theorem parseURL_step2 (s : GoStr) (scheme rest0 body qtail : GoStr)
    (h1 : getScheme (breakFirst '#' s).1 = some (scheme, rest0))
    (h2 : breakFirst '?' rest0 = ('/' :: '/' :: body, qtail)) :
    parseURL s =
      (match parseAuthority ((breakFirst '/' body).1) with
       | none => none
       | some (uu, up, hostRaw) =>
         match unescape (breakFirst '/' body).2 EncMode.path with
         | none => none
         | some p =>
           some { scheme := scheme, userinfoUser := uu, userinfoPass := up,
                  hostRaw := hostRaw, path := p,
                  rawQuery := match qtail with | [] => [] | _ :: q => q }) := by
  rw [parseURL_step s scheme rest0 h1]
  simp only [h2]
  rw [if_pos (show (('/' : Char) :: '/' :: body).take 2 = ['/', '/'] from rfl)]
  simp only [List.drop_succ_cons, List.drop_zero]
  cases qtail <;> rfl

theorem parseURL_hier (H Dg P Q : GoStr)
    (hH : H.all urlSafeChar = true) (hDg : allDigits Dg = true)
    (hP : P.all urlSafeChar = true) (hQ : ('#') ∉ Q) :
    parseURL ("clickhouse://".data ++ (H ++ ':' :: Dg) ++
        (if P = [] then [] else '/' :: P) ++
        (if Q = [] then [] else '?' :: Q)) =
      some { scheme := "clickhouse".data, userinfoUser := none,
             userinfoPass := none, hostRaw := H ++ ':' :: Dg,
             path := (if P = [] then [] else '/' :: P), rawQuery := Q } := by
  have hDgsafe := digits_all_safe Dg hDg
  have hAn : ∀ c0 : Char, urlSafeChar c0 = false → ¬(c0 = ':') →
      c0 ∉ H ++ ':' :: Dg :=
    fun c0 h0 hc => notin_append c0 (notin_safe H hH c0 h0)
      (notin_cons hc (notin_safe Dg hDgsafe c0 h0))
  have hup0 : unescape ([] : GoStr) EncMode.path = some [] := rfl
  by_cases hq : Q = [] <;> by_cases hp : P = []
  · subst hq
    rw [if_pos hp, if_pos rfl, List.append_nil, List.append_nil]
    have hbf : breakFirst '#' ("clickhouse://".data ++ (H ++ ':' :: Dg)) =
        ("clickhouse://".data ++ (H ++ ':' :: Dg), []) :=
      breakFirst_not_mem '#' _
        (notin_append '#' (by decide) (hAn '#' (by decide) (by decide)))
    have hsch : getScheme
        (breakFirst '#' ("clickhouse://".data ++ (H ++ ':' :: Dg))).1 =
        some ("clickhouse".data, '/' :: '/' :: (H ++ ':' :: Dg)) := by
      rw [hbf]
      exact getScheme_ck ('/' :: '/' :: (H ++ ':' :: Dg))
    have hbfq : breakFirst '?' ('/' :: '/' :: (H ++ ':' :: Dg)) =
        ('/' :: '/' :: (H ++ ':' :: Dg), []) :=
      breakFirst_not_mem '?' _
        (notin_cons (by decide) (notin_cons (by decide)
          (hAn '?' (by decide) (by decide))))
    rw [parseURL_step2 _ _ _ _ _ hsch hbfq]
    have hbfs : breakFirst '/' (H ++ ':' :: Dg) = (H ++ ':' :: Dg, []) :=
      breakFirst_not_mem '/' _ (hAn '/' (by decide) (by decide))
    simp only [hbfs, parseAuthority_hostport H Dg hH hDg, hup0]
  · subst hq
    rw [if_neg hp, if_pos rfl, List.append_nil]
    have hbf : breakFirst '#'
        ("clickhouse://".data ++ (H ++ ':' :: Dg) ++ '/' :: P) =
        ("clickhouse://".data ++ (H ++ ':' :: Dg) ++ '/' :: P, []) :=
      breakFirst_not_mem '#' _
        (notin_append '#'
          (notin_append '#' (by decide) (hAn '#' (by decide) (by decide)))
          (notin_cons (by decide) (notin_safe P hP '#' (by decide))))
    have hsch : getScheme
        (breakFirst '#'
          ("clickhouse://".data ++ (H ++ ':' :: Dg) ++ '/' :: P)).1 =
        some ("clickhouse".data, '/' :: '/' :: ((H ++ ':' :: Dg) ++ '/' :: P)) := by
      rw [hbf]
      exact getScheme_ck ('/' :: '/' :: ((H ++ ':' :: Dg) ++ '/' :: P))
    have hbfq : breakFirst '?' ('/' :: '/' :: ((H ++ ':' :: Dg) ++ '/' :: P)) =
        ('/' :: '/' :: ((H ++ ':' :: Dg) ++ '/' :: P), []) :=
      breakFirst_not_mem '?' _
        (notin_cons (by decide) (notin_cons (by decide)
          (notin_append '?' (hAn '?' (by decide) (by decide))
            (notin_cons (by decide) (notin_safe P hP '?' (by decide))))))
    rw [parseURL_step2 _ _ _ _ _ hsch hbfq]
    have hbfs : breakFirst '/' ((H ++ ':' :: Dg) ++ '/' :: P) =
        (H ++ ':' :: Dg, '/' :: P) :=
      breakFirst_append '/' _ _ (hAn '/' (by decide) (by decide))
    simp only [hbfs, parseAuthority_hostport H Dg hH hDg,
      unescape_slash_path P hP]
  · subst hp
    rw [if_pos rfl, if_neg hq, List.append_nil]
    have hbf : breakFirst '#'
        ("clickhouse://".data ++ (H ++ ':' :: Dg) ++ '?' :: Q) =
        ("clickhouse://".data ++ (H ++ ':' :: Dg) ++ '?' :: Q, []) :=
      breakFirst_not_mem '#' _
        (notin_append '#'
          (notin_append '#' (by decide) (hAn '#' (by decide) (by decide)))
          (notin_cons (by decide) hQ))
    have hsch : getScheme
        (breakFirst '#'
          ("clickhouse://".data ++ (H ++ ':' :: Dg) ++ '?' :: Q)).1 =
        some ("clickhouse".data, '/' :: '/' :: ((H ++ ':' :: Dg) ++ '?' :: Q)) := by
      rw [hbf]
      exact getScheme_ck ('/' :: '/' :: ((H ++ ':' :: Dg) ++ '?' :: Q))
    have hbfq : breakFirst '?' ('/' :: '/' :: ((H ++ ':' :: Dg) ++ '?' :: Q)) =
        ('/' :: '/' :: (H ++ ':' :: Dg), '?' :: Q) := by
      rw [show ('/' :: '/' :: ((H ++ ':' :: Dg) ++ '?' :: Q) : GoStr) =
        ('/' :: '/' :: (H ++ ':' :: Dg)) ++ '?' :: Q from by simp]
      exact breakFirst_append '?' _ _
        (notin_cons (by decide) (notin_cons (by decide)
          (hAn '?' (by decide) (by decide))))
    rw [parseURL_step2 _ _ _ _ _ hsch hbfq]
    have hbfs : breakFirst '/' (H ++ ':' :: Dg) = (H ++ ':' :: Dg, []) :=
      breakFirst_not_mem '/' _ (hAn '/' (by decide) (by decide))
    simp only [hbfs, parseAuthority_hostport H Dg hH hDg, hup0]
  · rw [if_neg hp, if_neg hq]
    have hbf : breakFirst '#'
        ("clickhouse://".data ++ (H ++ ':' :: Dg) ++ '/' :: P ++ '?' :: Q) =
        ("clickhouse://".data ++ (H ++ ':' :: Dg) ++ '/' :: P ++ '?' :: Q, []) :=
      breakFirst_not_mem '#' _
        (notin_append '#'
          (notin_append '#'
            (notin_append '#' (by decide) (hAn '#' (by decide) (by decide)))
            (notin_cons (by decide) (notin_safe P hP '#' (by decide))))
          (notin_cons (by decide) hQ))
    have hsch : getScheme
        (breakFirst '#'
          ("clickhouse://".data ++ (H ++ ':' :: Dg) ++ '/' :: P ++ '?' :: Q)).1 =
        some ("clickhouse".data,
          '/' :: '/' :: ((H ++ ':' :: Dg) ++ ('/' :: P ++ '?' :: Q))) := by
      rw [hbf]
      rw [show ("clickhouse://".data ++ (H ++ ':' :: Dg) ++ '/' :: P ++ '?' :: Q :
          GoStr) = "clickhouse://".data ++
            ((H ++ ':' :: Dg) ++ ('/' :: P ++ '?' :: Q)) from by simp]
      exact getScheme_ck ('/' :: '/' :: ((H ++ ':' :: Dg) ++ ('/' :: P ++ '?' :: Q)))
    have hbfq : breakFirst '?'
        ('/' :: '/' :: ((H ++ ':' :: Dg) ++ ('/' :: P ++ '?' :: Q))) =
        ('/' :: '/' :: ((H ++ ':' :: Dg) ++ '/' :: P), '?' :: Q) := by
      rw [show ('/' :: '/' :: ((H ++ ':' :: Dg) ++ ('/' :: P ++ '?' :: Q)) : GoStr) =
        ('/' :: '/' :: ((H ++ ':' :: Dg) ++ '/' :: P)) ++ '?' :: Q from by simp]
      exact breakFirst_append '?' _ _
        (notin_cons (by decide) (notin_cons (by decide)
          (notin_append '?' (hAn '?' (by decide) (by decide))
            (notin_cons (by decide) (notin_safe P hP '?' (by decide))))))
    rw [parseURL_step2 _ _ _ _ _ hsch hbfq]
    have hbfs : breakFirst '/' ((H ++ ':' :: Dg) ++ '/' :: P) =
        (H ++ ':' :: Dg, '/' :: P) :=
      breakFirst_append '/' _ _ (hAn '/' (by decide) (by decide))
    simp only [hbfs, parseAuthority_hostport H Dg hH hDg,
      unescape_slash_path P hP]

/-! ### The query parameters of `BuildConnectionString`, explicitly -/

theorem builderParams_no_extras (b : ConnStringBuilder) (hx : b.extraParams = []) :
    builderParams b =
      (if b.username ≠ [] then [("username".data, b.username)] else []) ++
      (if b.password ≠ [] then [("password".data, b.password)] else []) ++
      (if b.tls then ("secure".data, "true".data) ::
        (if b.tlsSkipVerify then [("skip_verify".data, "true".data)] else [])
       else []) ++
      (if b.debug then [("debug".data, "true".data)] else []) := by
  unfold builderParams
  rw [hx]
  by_cases h1 : b.username = [] <;> by_cases h2 : b.password = [] <;>
    by_cases h3 : b.tls <;> by_cases h4 : b.tlsSkipVerify <;>
    by_cases h5 : b.debug <;>
    simp [valuesSet, h1, h2, h3, h4, h5]

theorem builderParams_keys (b : ConnStringBuilder) (hx : b.extraParams = []) :
    ∀ kv ∈ builderParams b,
      (kv = ("username".data, b.username) ∧ b.username ≠ []) ∨
      (kv = ("password".data, b.password) ∧ b.password ≠ []) ∨
      (kv = ("secure".data, "true".data) ∧ b.tls = true) ∨
      (kv = ("skip_verify".data, "true".data) ∧ b.tls = true ∧
        b.tlsSkipVerify = true) ∨
      (kv = ("debug".data, "true".data) ∧ b.debug = true) := by
  rw [builderParams_no_extras b hx]
  intro kv hm
  simp only [List.mem_append] at hm
  rcases hm with ((hm | hm) | hm) | hm
  · split at hm
    · next hcond => exact Or.inl ⟨List.mem_singleton.1 hm, hcond⟩
    · cases hm
  · split at hm
    · next hcond => exact Or.inr (Or.inl ⟨List.mem_singleton.1 hm, hcond⟩)
    · cases hm
  · split at hm
    · next hcond =>
      rcases List.mem_cons.1 hm with he | hm2
      · exact Or.inr (Or.inr (Or.inl ⟨he, hcond⟩))
      · split at hm2
        · next hcond2 =>
          exact Or.inr (Or.inr (Or.inr (Or.inl
            ⟨List.mem_singleton.1 hm2, hcond, hcond2⟩)))
        · cases hm2
    · cases hm
  · split at hm
    · next hcond => exact Or.inr (Or.inr (Or.inr (Or.inr
        ⟨List.mem_singleton.1 hm, hcond⟩)))
    · cases hm

theorem username_mem_builderParams (b : ConnStringBuilder) (hx : b.extraParams = [])
    (h : b.username ≠ []) : ("username".data, b.username) ∈ builderParams b := by
  rw [builderParams_no_extras b hx]
  simp [h]

theorem password_mem_builderParams (b : ConnStringBuilder) (hx : b.extraParams = [])
    (h : b.password ≠ []) : ("password".data, b.password) ∈ builderParams b := by
  rw [builderParams_no_extras b hx]
  simp [h]

theorem secure_mem_builderParams (b : ConnStringBuilder) (hx : b.extraParams = [])
    (h : b.tls = true) : ("secure".data, "true".data) ∈ builderParams b := by
  rw [builderParams_no_extras b hx]
  simp [h]

theorem skip_mem_builderParams (b : ConnStringBuilder) (hx : b.extraParams = [])
    (h3 : b.tls = true) (h4 : b.tlsSkipVerify = true) :
    ("skip_verify".data, "true".data) ∈ builderParams b := by
  rw [builderParams_no_extras b hx]
  simp [h3, h4]

theorem debug_mem_builderParams (b : ConnStringBuilder) (hx : b.extraParams = [])
    (h : b.debug = true) : ("debug".data, "true".data) ∈ builderParams b := by
  rw [builderParams_no_extras b hx]
  simp [h]

theorem builderParams_keys_nodup (b : ConnStringBuilder) (hx : b.extraParams = []) :
    ((builderParams b).map Prod.fst).Nodup := by
  rw [builderParams_no_extras b hx]
  by_cases h1 : b.username = [] <;> by_cases h2 : b.password = [] <;>
    by_cases h3 : b.tls <;> by_cases h4 : b.tlsSkipVerify <;>
    by_cases h5 : b.debug <;>
    simp [h1, h2, h3, h4, h5] <;> decide

theorem builderParams_good (b : ConnStringBuilder) (hx : b.extraParams = [])
    (hu : b.username.all urlSafeChar = true)
    (hp : b.password.all urlSafeChar = true) :
    ∀ kv ∈ builderParams b,
      kv.1.all urlSafeChar = true ∧ kv.2.all urlSafeChar = true := by
  intro kv hm
  rcases builderParams_keys b hx kv hm with ⟨he, -⟩ | ⟨he, -⟩ | ⟨he, -⟩ |
    ⟨he, -, -⟩ | ⟨he, -⟩ <;> subst he
  · exact ⟨show ("username".data : GoStr).all urlSafeChar = true by decide, hu⟩
  · exact ⟨show ("password".data : GoStr).all urlSafeChar = true by decide, hp⟩
  · exact ⟨show ("secure".data : GoStr).all urlSafeChar = true by decide,
      show ("true".data : GoStr).all urlSafeChar = true by decide⟩
  · exact ⟨show ("skip_verify".data : GoStr).all urlSafeChar = true by decide,
      show ("true".data : GoStr).all urlSafeChar = true by decide⟩
  · exact ⟨show ("debug".data : GoStr).all urlSafeChar = true by decide,
      show ("true".data : GoStr).all urlSafeChar = true by decide⟩

theorem qGet_sorted_of_mem (ps : List (GoStr × GoStr)) (k v : GoStr)
    (hmem : (k, v) ∈ ps) (hnd : (ps.map Prod.fst).Nodup) :
    qGet (sortPairs ps) k = v :=
  qGet_eq_of_mem _ k v ((sortPairs_perm ps).mem_iff.2 hmem)
    (((sortPairs_perm ps).map Prod.fst).nodup_iff.2 hnd)

theorem qGet_sorted_of_not_mem (ps : List (GoStr × GoStr)) (k : GoStr)
    (h : k ∉ ps.map Prod.fst) : qGet (sortPairs ps) k = [] :=
  qGet_eq_nil_of_not_mem _ k
    (fun hm => h (((sortPairs_perm ps).map Prod.fst).mem_iff.1 hm))

theorem username_notin_keys (b : ConnStringBuilder) (hx : b.extraParams = [])
    (h : b.username = []) :
    "username".data ∉ (builderParams b).map Prod.fst := by
  intro hm
  obtain ⟨kv, hkv, hfst⟩ := List.mem_map.1 hm
  rcases builderParams_keys b hx kv hkv with ⟨he, hne⟩ | ⟨he, -⟩ | ⟨he, -⟩ | ⟨he, -, -⟩ | ⟨he, -⟩ <;> subst he
  · exact hne h
  · exact absurd hfst (show ¬(("password".data : GoStr)) = "username".data by decide)
  · exact absurd hfst (show ¬(("secure".data : GoStr)) = "username".data by decide)
  · exact absurd hfst (show ¬(("skip_verify".data : GoStr)) = "username".data by decide)
  · exact absurd hfst (show ¬(("debug".data : GoStr)) = "username".data by decide)

theorem password_notin_keys (b : ConnStringBuilder) (hx : b.extraParams = [])
    (h : b.password = []) :
    "password".data ∉ (builderParams b).map Prod.fst := by
  intro hm
  obtain ⟨kv, hkv, hfst⟩ := List.mem_map.1 hm
  rcases builderParams_keys b hx kv hkv with ⟨he, -⟩ | ⟨he, hne⟩ | ⟨he, -⟩ | ⟨he, -, -⟩ | ⟨he, -⟩ <;> subst he
  · exact absurd hfst (show ¬(("username".data : GoStr)) = "password".data by decide)
  · exact hne h
  · exact absurd hfst (show ¬(("secure".data : GoStr)) = "password".data by decide)
  · exact absurd hfst (show ¬(("skip_verify".data : GoStr)) = "password".data by decide)
  · exact absurd hfst (show ¬(("debug".data : GoStr)) = "password".data by decide)

theorem secure_notin_keys (b : ConnStringBuilder) (hx : b.extraParams = [])
    (h : b.tls = false) :
    "secure".data ∉ (builderParams b).map Prod.fst := by
  intro hm
  obtain ⟨kv, hkv, hfst⟩ := List.mem_map.1 hm
  rcases builderParams_keys b hx kv hkv with ⟨he, -⟩ | ⟨he, -⟩ | ⟨he, ht⟩ | ⟨he, ht, -⟩ | ⟨he, -⟩ <;> subst he
  · exact absurd hfst (show ¬(("username".data : GoStr)) = "secure".data by decide)
  · exact absurd hfst (show ¬(("password".data : GoStr)) = "secure".data by decide)
  · rw [h] at ht; cases ht
  · exact absurd hfst (show ¬(("skip_verify".data : GoStr)) = "secure".data by decide)
  · exact absurd hfst (show ¬(("debug".data : GoStr)) = "secure".data by decide)

theorem skip_notin_keys (b : ConnStringBuilder) (hx : b.extraParams = [])
    (h : b.tlsSkipVerify = false) :
    "skip_verify".data ∉ (builderParams b).map Prod.fst := by
  intro hm
  obtain ⟨kv, hkv, hfst⟩ := List.mem_map.1 hm
  rcases builderParams_keys b hx kv hkv with ⟨he, -⟩ | ⟨he, -⟩ | ⟨he, -⟩ | ⟨he, -, ht⟩ | ⟨he, -⟩ <;> subst he
  · exact absurd hfst (show ¬(("username".data : GoStr)) = "skip_verify".data by decide)
  · exact absurd hfst (show ¬(("password".data : GoStr)) = "skip_verify".data by decide)
  · exact absurd hfst (show ¬(("secure".data : GoStr)) = "skip_verify".data by decide)
  · rw [h] at ht; cases ht
  · exact absurd hfst (show ¬(("debug".data : GoStr)) = "skip_verify".data by decide)

theorem debug_notin_keys (b : ConnStringBuilder) (hx : b.extraParams = [])
    (h : b.debug = false) :
    "debug".data ∉ (builderParams b).map Prod.fst := by
  intro hm
  obtain ⟨kv, hkv, hfst⟩ := List.mem_map.1 hm
  rcases builderParams_keys b hx kv hkv with ⟨he, -⟩ | ⟨he, -⟩ | ⟨he, -⟩ | ⟨he, -, -⟩ | ⟨he, ht⟩ <;> subst he
  · exact absurd hfst (show ¬(("username".data : GoStr)) = "debug".data by decide)
  · exact absurd hfst (show ¬(("password".data : GoStr)) = "debug".data by decide)
  · exact absurd hfst (show ¬(("secure".data : GoStr)) = "debug".data by decide)
  · exact absurd hfst (show ¬(("skip_verify".data : GoStr)) = "debug".data by decide)
  · rw [h] at ht; cases ht

/-- One-step unfolding of `NewConnStringBuilderFromConnString` once the
URL is parsed. -/
theorem newBuilder_step (s : GoStr) (u : GoURL) (h : parseURL s = some u) :
    NewConnStringBuilderFromConnString s =
      (match (if (splitHostPort u.hostRaw).2 ≠ []
          then goAtoi (splitHostPort u.hostRaw).2 else some 0) with
       | none => none
       | some port =>
         some { host := (splitHostPort u.hostRaw).1, port := port,
                database := dropLeadingSlash u.path,
                username :=
                  if (match u.userinfoUser with | some uu => uu | none => []) = []
                  then qGet (parseQuery u.rawQuery) "username".data
                  else (match u.userinfoUser with | some uu => uu | none => []),
                password :=
                  if (match u.userinfoPass with | some pp => pp | none => []) = []
                  then qGet (parseQuery u.rawQuery) "password".data
                  else (match u.userinfoPass with | some pp => pp | none => []),
                tls := qGet (parseQuery u.rawQuery) "secure".data = "true".data,
                tlsSkipVerify :=
                  qGet (parseQuery u.rawQuery) "skip_verify".data = "true".data,
                debug := qGet (parseQuery u.rawQuery) "debug".data = "true".data,
                extraParams := [] }) := by
  unfold NewConnStringBuilderFromConnString
  rw [h]

theorem buildConnectionString_shape (b : ConnStringBuilder)
    (hh : b.host.all urlSafeChar = true) (hd : b.database.all urlSafeChar = true)
    (hport0 : 0 ≤ b.port) :
    buildConnectionString b =
      "clickhouse://".data ++ (b.host ++ ':' :: goItoa b.port.toNat) ++
      (if b.database = [] then [] else '/' :: b.database) ++
      (if encodeValues (builderParams b) = [] then []
       else '?' :: encodeValues (builderParams b)) := by
  unfold buildConnectionString urlString
  rw [show goIntRepr b.port = goItoa b.port.toNat from by
    unfold goIntRepr
    rw [if_neg (by omega)]]
  rw [show (b.host ++ ':' :: goItoa b.port.toNat : GoStr) =
    b.host ++ ([':'] ++ goItoa b.port.toNat) from rfl]
  rw [escape_append, escape_append, escape_safe b.host _ hh,
    show escape ([':'] : GoStr) EncMode.host = [':'] from by decide,
    escape_safe (goItoa b.port.toNat) _
      (digits_all_safe _ (goItoa_digits b.port.toNat))]
  have hhead : b.database.head? ≠ some '/' := by
    cases hdbl : b.database with
    | nil => simp
    | cons c t =>
      simp only [List.head?_cons, ne_eq, Option.some.injEq]
      intro he
      have hcs := List.all_eq_true.1 hd c (hdbl ▸ List.mem_cons_self c t)
      rw [he] at hcs
      have hns : urlSafeChar '/' = false := by decide
      rw [hns] at hcs
      cases hcs
  have hesc_db : escape b.database EncMode.path = b.database :=
    escape_safe _ _ hd
  have hesc0 : escape ([] : GoStr) EncMode.path = [] := rfl
  by_cases hdb : b.database = [] <;>
    by_cases hqe : encodeValues (builderParams b) = [] <;>
    simp [hdb, hqe, hhead, hesc_db, hesc0, List.append_assoc]

/-- C3 (amended): the build-then-parse round trip reproduces the builder
exactly — same host, port, database, tls and tls_skip_verify — for
every builder whose host, database, username and password are made of
URL-unreserved characters, whose port is a non-negative int64 value,
which has no extra query parameters, and whose `tls_skip_verify` flag is
only set together with `tls` (the counterexample shows the flag is
otherwise dropped). -/
theorem c3_roundtrip_amended (b : ConnStringBuilder)
    (hh : b.host.all urlSafeChar = true)
    (hd : b.database.all urlSafeChar = true)
    (hu : b.username.all urlSafeChar = true)
    (hp : b.password.all urlSafeChar = true)
    (hport0 : 0 ≤ b.port) (hport1 : b.port < 2 ^ 63)
    (hskip : b.tlsSkipVerify = true → b.tls = true)
    (hx : b.extraParams = []) :
    NewConnStringBuilderFromConnString (buildConnectionString b) = some b := by
  have hgood := builderParams_good b hx hu hp
  have hnodup := builderParams_keys_nodup b hx
  have hDg : allDigits (goItoa b.port.toNat) = true := by
    unfold allDigits
    exact goItoa_digits b.port.toNat
  have hQhash : ('#') ∉ encodeValues (builderParams b) :=
    notin_encodeValues _ hgood '#' (by decide) (by decide) (by decide)
  rw [buildConnectionString_shape b hh hd hport0]
  rw [newBuilder_step _ _ (parseURL_hier b.host (goItoa b.port.toNat) b.database
    (encodeValues (builderParams b)) hh hDg hd hQhash)]
  have h63 : b.port.toNat < 2 ^ 63 := by
    have h2 : ((2 : Int) ^ 63) = 9223372036854775808 := by norm_num
    have h2n : ((2 : Nat) ^ 63) = 9223372036854775808 := by norm_num
    rw [h2] at hport1
    rw [h2n]
    omega
  have hport' : (if goItoa b.port.toNat ≠ [] then goAtoi (goItoa b.port.toNat)
      else some 0) = some ((b.port.toNat : Nat) : Int) := by
    rw [if_pos (goItoa_ne_nil b.port.toNat)]
    exact goAtoi_goItoa b.port.toNat h63
  have hqeq : parseQuery (encodeValues (builderParams b)) =
      sortPairs (builderParams b) := parseQuery_encodeValues _ hgood
  have huser : qGet (sortPairs (builderParams b)) "username".data = b.username := by
    by_cases hue : b.username = []
    · rw [qGet_sorted_of_not_mem _ _ (username_notin_keys b hx hue), hue]
    · exact qGet_sorted_of_mem _ _ _ (username_mem_builderParams b hx hue) hnodup
  have hpass : qGet (sortPairs (builderParams b)) "password".data = b.password := by
    by_cases hpe : b.password = []
    · rw [qGet_sorted_of_not_mem _ _ (password_notin_keys b hx hpe), hpe]
    · exact qGet_sorted_of_mem _ _ _ (password_mem_builderParams b hx hpe) hnodup
  have htls : (decide (qGet (sortPairs (builderParams b)) "secure".data =
      "true".data)) = b.tls := by
    cases hb3 : b.tls with
    | false =>
      rw [qGet_sorted_of_not_mem _ _ (secure_notin_keys b hx hb3)]
      decide
    | true =>
      rw [qGet_sorted_of_mem _ _ _ (secure_mem_builderParams b hx hb3) hnodup]
      decide
  have hskpv : (decide (qGet (sortPairs (builderParams b)) "skip_verify".data =
      "true".data)) = b.tlsSkipVerify := by
    cases hb4 : b.tlsSkipVerify with
    | false =>
      rw [qGet_sorted_of_not_mem _ _ (skip_notin_keys b hx hb4)]
      decide
    | true =>
      rw [qGet_sorted_of_mem _ _ _
        (skip_mem_builderParams b hx (hskip hb4) hb4) hnodup]
      decide
  have hdbg : (decide (qGet (sortPairs (builderParams b)) "debug".data =
      "true".data)) = b.debug := by
    cases hb5 : b.debug with
    | false =>
      rw [qGet_sorted_of_not_mem _ _ (debug_notin_keys b hx hb5)]
      decide
    | true =>
      rw [qGet_sorted_of_mem _ _ _ (debug_mem_builderParams b hx hb5) hnodup]
      decide
  have hdbeq : dropLeadingSlash (if b.database = [] then [] else '/' :: b.database)
      = b.database := by
    by_cases hdb : b.database = []
    · rw [if_pos hdb, hdb]
      rfl
    · rw [if_neg hdb]
      rfl
  have hporteq : ((b.port.toNat : Nat) : Int) = b.port := Int.toNat_of_nonneg hport0
  simp only [splitHostPort_hostport b.host (goItoa b.port.toNat) hh hDg, hport',
    hqeq, hdbeq, hporteq, htls, hskpv, hdbg]
  simp only [huser, hpass]
  rw [show b = { host := b.host, port := b.port, database := b.database, username := b.username, password := b.password, tls := b.tls, tlsSkipVerify := b.tlsSkipVerify, debug := b.debug, extraParams := b.extraParams } from rfl, hx]
  rfl

def c3WitnessBuilder : ConnStringBuilder :=
  { host := "example.com".data, port := 8443, database := "db".data,
    username := "u".data, password := "pw".data, tls := true,
    tlsSkipVerify := true, debug := true, extraParams := [] }

/-- Witness for C3 (amended) at a concrete fully-populated builder. -/
theorem c3_roundtrip_amended_witness :
    NewConnStringBuilderFromConnString (buildConnectionString c3WitnessBuilder) =
      some c3WitnessBuilder :=
  c3_roundtrip_amended c3WitnessBuilder (by decide) (by decide) (by decide)
    (by decide) (by decide) (by decide) (fun _ => rfl) rfl
